import Mathlib

/-!
Shallow embedding of the help/usage text synthesis engine of
`src/argh_derive/src/help.rs`, together with theorems checking the
natural-language specification against it.

The field and command metadata types (`StructField`, `TypeAttrs`, the error
collector) and the `argh_shared` helpers are consumed by `help.rs` but
declared outside it; they are modelled from the spec where noted.  The
`&mut String` output buffers of the Rust code become explicit string
results, and the `Errors` collector becomes an explicitly threaded
diagnostic list.
-/

namespace ArghHelp

/-! ### Character-list helpers used by the embedding -/

/-- Concatenation of the images of a character map; used to state the
behaviour of the escaping function. -/
def concatMap (f : Char → List Char) : List Char → List Char
  | [] => []
  | c :: rest => f c ++ concatMap f rest

/-- Fuel-indexed worker for `replaceStr`; the fuel bounds the number of
steps and is instantiated with the length of the subject string. -/
def replaceCharsAux (pat rep : List Char) : List Char → Nat → List Char
  | s, 0 => s
  | [], _ + 1 => []
  | c :: rest, fuel + 1 =>
    if pat.isPrefixOf (c :: rest) ∧ pat ≠ [] then
      rep ++ replaceCharsAux pat rep (rest.drop (pat.length - 1)) fuel
    else
      c :: replaceCharsAux pat rep rest fuel

/-- Embedding of Rust `str::replace`: replaces every (leftmost-first,
non-overlapping) occurrence of `pat` by `rep`. -/
def replaceStr (s pat rep : String) : String :=
  String.mk (replaceCharsAux pat.data rep.data s.data s.data.length)

/-- Embedding of Rust `str::trim` at the character level: leading and
trailing whitespace removed. -/
def strTrim (s : String) : String :=
  String.mk (((s.data.dropWhile Char.isWhitespace).reverse.dropWhile
    Char.isWhitespace).reverse)

/-- Worker for `containsStr`: does `pat` occur as a contiguous block? -/
def isInfixOfChars (pat : List Char) : List Char → Bool
  | [] => pat.isEmpty
  | c :: rest => pat.isPrefixOf (c :: rest) || isInfixOfChars pat rest

/-- Embedding of Rust `str::contains` with a string pattern. -/
def containsStr (s pat : String) : Bool := isInfixOfChars pat.data s.data

/-- String starts-with, at the character level. -/
def strStartsWith (s pat : String) : Bool := pat.data.isPrefixOf s.data

/-- String ends-with, at the character level. -/
def strEndsWith (s pat : String) : Bool := pat.data.isSuffixOf s.data

/-- Worker for `trimStartMatches`, fuel-indexed like `replaceCharsAux`. -/
def trimStartAux (pat : List Char) : List Char → Nat → List Char
  | s, 0 => s
  | s, fuel + 1 =>
    if pat ≠ [] ∧ pat.isPrefixOf s then trimStartAux pat (s.drop pat.length) fuel
    else s

/-- Embedding of Rust `str::trim_start_matches`: repeatedly strips the
pattern from the front. -/
def trimStartMatches (s pat : String) : String :=
  String.mk (trimStartAux pat.data s.data s.data.length)

/-- Worker for `splitLines`. -/
def splitLinesAux : List Char → List Char → List (List Char)
  | [], acc => [acc.reverse]
  | c :: rest, acc =>
    if c = '\n' then acc.reverse :: splitLinesAux rest []
    else splitLinesAux rest (c :: acc)

/-- Embedding of Rust `str::split` at the newline character. -/
def splitLines (s : String) : List String :=
  (splitLinesAux s.data []).map String.mk

/-! ### Data model

`FieldKind`, `Optionality` and the field/type attribute records are
consumed by `help.rs` but declared in the surrounding crate
(`parse_attrs.rs`, `lib.rs`), which is not among the audited sources; they
are modelled from the spec (§3, Data Model). -/

/-- Modelled from the spec: the kind of an argument field (`FieldKind`,
declared in `parse_attrs.rs`, outside the audited file). -/
inductive FieldKind
  | Positional
  | Switch
  | Option
  | SubCommand
deriving DecidableEq

/-- Modelled from the spec: `Optionality` — Required, Optional or Repeating
(declared in `lib.rs`, outside the audited file). -/
inductive Optionality
  | Required
  | Optional
  | Repeating
deriving DecidableEq

/-- Modelled from the spec: `Optionality::is_required` (declared in
`lib.rs`, outside the audited file). -/
def Optionality.is_required : Optionality → Bool
  | .Required => true
  | _ => false

/-- Modelled from the spec: one argument field (`StructField` together with
the parts of its parsed attributes that `help.rs` reads).  `span` stands
for the source location of the field (`field.name.span()`), `description`
for `attrs.description.content.value()`, `short` for
`attrs.short.value()` and `arg_name_override` for
`attrs.arg_name.value()`. -/
structure StructField where
  name : String
  span : Nat
  kind : FieldKind
  optionality : Optionality
  long_name : Option String
  short : Option Char
  arg_name_override : Option String
  description : Option String
deriving DecidableEq

/-- Modelled from the spec: `StructField::arg_name` (declared outside the
audited file) — the positional display name: the explicit override when
given, else the field's own name. -/
def StructField.arg_name (f : StructField) : String :=
  f.arg_name_override.getD f.name

/-- Modelled from the spec: the type-level attributes read by `help.rs`
(`TypeAttrs`): description, example and note literals, error-code table. -/
structure TypeAttrs where
  description : Option String
  examples : List String
  notes : List String
  error_codes : List (String × String)
deriving DecidableEq

/-- Modelled from the spec: one recorded diagnostic of the accumulating
error collector (`Errors::err_span`): a source span plus a message. -/
structure Diag where
  span : Nat
  msg : String
deriving DecidableEq

/-- Modelled from the spec: `Span::call_site()`, the span used for
type-level diagnostics, as a distinguished location value. -/
def call_site : Nat := 0

/-! ### Constants (`help.rs` lines 16-22; `INDENT` is from `argh_shared`) -/

def SECTION_SEPARATOR : String := "\n\n"

def HELP_FLAG : String := "--help"

def HELP_DESCRIPTION : String := "display usage information"

def HELP_JSON_FLAG : String := "--help-json"

def HELP_JSON_DESCRIPTION : String := "display usage information encoded in JSON"

/-- Modelled from the spec: `argh_shared::INDENT`, the indent string
configuration constant of the external wrapping collaborator. -/
def INDENT : String := "  "

/-! ### Embedding of the functions of `help.rs` -/

/-- Embedding of `escape_json` (`help.rs` lines 318-320): two successive
`str::replace` passes, newline first, then double quote. -/
def escape_json (value : String) : String :=
  replaceStr (replaceStr value "\n" "\\n") "\"" "\\\""

/-- The fixed message text of a missing-description diagnostic
(`help.rs` lines 404-408). -/
def no_description_msg (kind : String) : String :=
  "#[derive(FromArgs)] " ++ kind ++
    " with no description.\nAdd a doc comment or an `#[argh(description = \"...\")]` attribute."

/-- Embedding of `require_description` (`help.rs` lines 395-412): trimmed
text when present, otherwise a recorded diagnostic and the empty string. -/
def require_description (errors : List Diag) (err_span : Nat)
    (desc : Option String) (kind : String) : String × List Diag :=
  match desc with
  | some d => (strTrim d, errors)
  | none => ("", errors ++ [⟨err_span, no_description_msg kind⟩])

/-- Embedding of `positional_usage` (`help.rs` lines 339-353); the Rust
function appends to `out`, the embedding returns the appended fragment. -/
def positional_usage (field : StructField) : String :=
  let core := "<" ++ field.arg_name ++
    (if field.optionality = Optionality.Repeating then "..." else "") ++ ">"
  if field.optionality.is_required then core else "[" ++ core ++ "]"

/-- Embedding of `option_usage` (`help.rs` lines 357-391).  The
`unreachable!` arms for the `SubCommand`/`Positional` kinds (an
internal-consistency panic per spec §7) are modelled as contributing
nothing, and the `expect` on the long name as the empty-string default. -/
def option_usage (field : StructField) : String :=
  let long_name := field.long_name.getD ""
  let core :=
    (match field.short with
      | some short => "-" ++ short.toString
      | none => long_name) ++
    (match field.kind with
      | FieldKind.SubCommand | FieldKind.Positional => ""
      | FieldKind.Switch => ""
      | FieldKind.Option =>
        " <" ++
          (match field.arg_name_override with
            | some arg_name => arg_name
            | none => trimStartMatches long_name "--") ++
          (if field.optionality = Optionality.Repeating then "..." else "") ++ ">")
  if field.optionality.is_required then core else "[" ++ core ++ "]"

/-- Embedding of `build_usage_command_line` (`help.rs` lines 462-490). -/
def build_usage_command_line (out : String) (fields : List StructField)
    (subcommand : Option StructField) : String :=
  let out := (fields.filter (fun f => f.kind == FieldKind.Positional)).foldl
    (fun out arg => out ++ " " ++ positional_usage arg) out
  let out := (fields.filter (fun f => f.long_name.isSome)).foldl
    (fun out option => out ++ " " ++ option_usage option) out
  match subcommand with
  | some subcommand =>
    out ++ " " ++ (if !subcommand.optionality.is_required then "[" else "") ++
      "<command>" ++
      (if !subcommand.optionality.is_required then "]" else "") ++ " [<args>]"
  | none => out

/-- Modelled from the spec: `argh_shared::CommandInfo`, the
name/description pair handed to the external wrapping collaborator. -/
structure CommandInfo where
  name : String
  description : String

/-- Modelled from the spec: `argh_shared::write_description`, the external
wrapping collaborator — it appends a two-column entry: the name token on a
new indented line, then the description.  Word-wrapping at the
collaborator's column width is not modelled. -/
def write_description (info : CommandInfo) : String :=
  "\n" ++ INDENT ++ info.name ++ "  " ++ info.description

/-- Embedding of `positional_description_format` (`help.rs`
lines 426-429). -/
def positional_description_format (name description : String) : String :=
  write_description ⟨name, description⟩

/-- Embedding of `positional_description` (`help.rs` lines 416-424). -/
def positional_description (field : StructField) : String :=
  let field_name := field.arg_name
  let description :=
    match field.description with
    | some desc => strTrim desc
    | none => ""
  positional_description_format field_name description

/-- Embedding of `option_description_format` (`help.rs` lines 443-459). -/
def option_description_format (short : Option Char)
    (long_with_leading_dashes : String) (description : String) : String :=
  let name :=
    (match short with
      | some short => "-" ++ short.toString ++ ", "
      | none => "") ++ long_with_leading_dashes
  write_description ⟨name, description⟩

/-- Embedding of `option_description` (`help.rs` lines 434-441); returns
the rendered entry together with the updated diagnostics. -/
def option_description (errors : List Diag) (field : StructField) :
    String × List Diag :=
  let short := field.short
  let long_with_leading_dashes := field.long_name.getD ""
  let entry := require_description errors field.span field.description "field"
  (option_description_format short long_with_leading_dashes entry.1, entry.2)

/-- Embedding of `lits_section` (`help.rs` lines 323-336). -/
def lits_section (out : String) (heading : String) (lits : List String) :
    String :=
  if lits = [] then out
  else
    lits.foldl
      (fun out value =>
        (splitLines value).foldl (fun out line => out ++ "\n" ++ INDENT ++ line) out)
      (out ++ SECTION_SEPARATOR ++ heading)

/-- Embedding of `help` (`help.rs` lines 28-101): builds the text help
format template (with the `{command_name}` and `{subcommands}`
placeholders still unresolved) and threads the diagnostics collector. -/
def help (errors : List Diag) (ty_attrs : TypeAttrs)
    (fields : List StructField) (subcommand : Option StructField) :
    String × List Diag :=
  let format_lit := "Usage: {command_name}"
  let format_lit := build_usage_command_line format_lit fields subcommand
  let format_lit := format_lit ++ SECTION_SEPARATOR
  let descst := require_description errors call_site ty_attrs.description "type"
  let errors := descst.2
  let format_lit := format_lit ++ descst.1
  let positional := fields.filter (fun f => f.kind == FieldKind.Positional)
  let format_lit :=
    if positional = [] then format_lit
    else
      positional.foldl (fun out arg => out ++ positional_description arg)
        (format_lit ++ SECTION_SEPARATOR ++ "Positional Arguments:")
  let format_lit := format_lit ++ SECTION_SEPARATOR ++ "Options:"
  let st := (fields.filter (fun f => f.long_name.isSome)).foldl
    (fun (st : String × List Diag) option =>
      let entry := option_description st.2 option
      (st.1 ++ entry.1, entry.2))
    (format_lit, errors)
  let errors := st.2
  let format_lit := st.1 ++
    option_description_format none HELP_FLAG HELP_DESCRIPTION ++
    option_description_format none HELP_JSON_FLAG HELP_JSON_DESCRIPTION
  let format_lit :=
    match subcommand with
    | some _ => format_lit ++ SECTION_SEPARATOR ++ "Commands:{subcommands}"
    | none => format_lit
  let format_lit := lits_section format_lit "Examples:" ty_attrs.examples
  let format_lit := lits_section format_lit "Notes:" ty_attrs.notes
  let format_lit :=
    if ty_attrs.error_codes = [] then format_lit
    else
      ty_attrs.error_codes.foldl
        (fun out ct => out ++ "\n" ++ INDENT ++ ct.1 ++ " " ++ ct.2)
        (format_lit ++ SECTION_SEPARATOR ++ "Error codes:")
  (format_lit ++ "\n", errors)

/-- Embedding of `OptionHelp` (`help.rs` lines 103-107). -/
structure OptionHelp where
  short : String
  long : String
  description : String
deriving DecidableEq

/-- Embedding of `PositionalHelp` (`help.rs` lines 109-112). -/
structure PositionalHelp where
  name : String
  description : String
deriving DecidableEq

/-- Embedding of `HelpJSON::option_elements_json` (`help.rs`
lines 124-138). -/
def option_elements_json (options : List OptionHelp) : String :=
  options.foldl
    (fun retval opt =>
      (if retval = "" then retval else retval ++ ",\n    ") ++
        ("\x7b\"short\": \"" ++ opt.short ++ "\", \"long\": \"" ++ opt.long ++
          "\", \"description\": \"" ++ escape_json opt.description ++ "\"\x7d"))
    ""

/-- Embedding of `HelpJSON::help_elements_json` (`help.rs`
lines 139-152). -/
def help_elements_json (elements : List PositionalHelp) : String :=
  elements.foldl
    (fun retval pos =>
      (if retval = "" then retval else retval ++ ",\n    ") ++
        ("\x7b\"name\": \"" ++ pos.name ++ "\", \"description\": \"" ++
          escape_json pos.description ++ "\"\x7d"))
    ""

/-- Embedding of the options-collection step of `help_json` (`help.rs`
lines 189-216): the declared options (with `require_description` applied
to each description) followed by the two synthetic `--help` and
`--help-json` entries. -/
def json_options (errors : List Diag) (fields : List StructField) :
    List OptionHelp × List Diag :=
  let st := (fields.filter (fun f => f.long_name.isSome)).foldl
    (fun (st : List OptionHelp × List Diag) option =>
      let short :=
        match option.short with
        | some c => c.toString
        | none => ""
      let long_with_leading_dashes := option.long_name.getD ""
      let entry := require_description st.2 option.span option.description "field"
      (st.1 ++ [⟨short, long_with_leading_dashes, entry.1⟩], entry.2))
    ([], errors)
  (st.1 ++
      [⟨"", HELP_FLAG, HELP_DESCRIPTION⟩,
        ⟨"", HELP_JSON_FLAG, HELP_JSON_DESCRIPTION⟩],
    st.2)

/-- Modelled from the spec: the phase-2 runtime substitution of the
`{command_name}` interpolation token (Rust `format!` with the
`command_name` named argument). -/
def substCommandName (template command_name : String) : String :=
  replaceStr template "{command_name}" command_name

/-- Embedding of `help_json` (`help.rs` lines 159-315), composed with the
runtime code the macro emits: `command_name` is the joined invocation path
and `commands` the `(name, description)` pairs reported by the sub-command
type (used only when a sub-command field exists). -/
def help_json (errors : List Diag) (ty_attrs : TypeAttrs)
    (fields : List StructField) (subcommand : Option StructField)
    (command_name : String) (commands : List (String × String)) :
    String × List Diag :=
  let usage_format_pattern :=
    build_usage_command_line "{command_name}" fields subcommand
  let positional_args :=
    (fields.filter (fun f => f.kind == FieldKind.Positional)).map
      (fun arg =>
        let description :=
          match arg.description with
          | some desc => strTrim desc
          | none => ""
        PositionalHelp.mk arg.arg_name description)
  let optst := json_options errors fields
  let options := optst.1
  let errors := optst.2
  let subcommands :=
    match subcommand with
    | some _ =>
      commands.foldl
        (fun subcommands cmd =>
          (if subcommands = "" then subcommands else subcommands ++ ",\n    ") ++
            ("\x7b\"name\": \"" ++ cmd.1 ++ "\", \"description\": \"" ++
              cmd.2 ++ "\"\x7d"))
        ""
    | none => ""
  let descst := require_description errors call_site ty_attrs.description "type"
  let description := descst.1
  let errors := descst.2
  let exampleText := ty_attrs.examples.foldl (fun e lit => e ++ lit) ""
  let note := ty_attrs.notes.foldl (fun n lit => n ++ lit) ""
  let error_codes :=
    if ty_attrs.error_codes = [] then []
    else ty_attrs.error_codes.map
      (fun ct => PositionalHelp.mk ct.1 (escape_json ct.2))
  let help_options_json := option_elements_json options
  let help_positional_json := help_elements_json positional_args
  let help_error_codes_json := help_elements_json error_codes
  let help_description := escape_json description
  let notes_pattern := escape_json note
  let help_notes :=
    if containsStr notes_pattern "{command_name}" then
      substCommandName notes_pattern command_name
    else notes_pattern
  let examples_pattern := escape_json exampleText
  let help_examples :=
    if containsStr examples_pattern "{command_name}" then
      substCommandName examples_pattern command_name
    else examples_pattern
  let usage_value := substCommandName usage_format_pattern command_name
  let json_help_string := "\x7b\n"
  let json_help_string := json_help_string ++ "\"usage\": \"" ++ usage_value ++ "\",\n"
  let json_help_string :=
    json_help_string ++ "\"description\": \"" ++ help_description ++ "\",\n"
  let json_help_string :=
    json_help_string ++ "\"options\": [" ++ help_options_json ++ "],\n"
  let json_help_string :=
    json_help_string ++ "\"positional\": [" ++ help_positional_json ++ "],\n"
  let json_help_string :=
    json_help_string ++ "\"examples\": \"" ++ help_examples ++ "\",\n"
  let json_help_string :=
    json_help_string ++ "\"notes\": \"" ++ help_notes ++ "\",\n"
  let json_help_string :=
    json_help_string ++ "\"error_codes\": [" ++ help_error_codes_json ++ "],\n"
  let json_help_string :=
    json_help_string ++ "\"subcommands\": [" ++ subcommands ++ "]\n"
  let json_help_string := json_help_string ++ "\x7d\n"
  (json_help_string, errors)

/-- Modelled from the spec: the full runtime text help — the template built
by `help` with the `{subcommands}` and `{command_name}` placeholders
substituted with the runtime values. -/
def renderHelp (errors : List Diag) (ty_attrs : TypeAttrs)
    (fields : List StructField) (subcommand : Option StructField)
    (command_name : String) (subcommands_text : String) :
    String × List Diag :=
  let t := help errors ty_attrs fields subcommand
  (substCommandName (replaceStr t.1 "{subcommands}" subcommands_text)
      command_name,
    t.2)

/-! ### Shared helper notions and lemmas -/

/-- Concatenation of the images of a string-valued map over a list. -/
def strConcatMap (g : α → String) : List α → String
  | [] => ""
  | x :: rest => g x ++ strConcatMap g rest

/-- Separator-interspersed concatenation (the shape of the joined JSON
arrays). -/
def sepJoin (sep : String) : List String → String
  | [] => ""
  | a :: rest => a ++ strConcatMap (fun b => sep ++ b) rest

/-- The trimmed-or-empty description text an entity contributes to the
rendered output. -/
def descText : Option String → String
  | some d => strTrim d
  | none => ""

/-- The diagnostics `require_description` appends for a description slot. -/
def missingDiag (span : Nat) (kind : String) : Option String → List Diag
  | some _ => []
  | none => [⟨span, no_description_msg kind⟩]

theorem require_description_eq (errors : List Diag) (sp : Nat)
    (desc : Option String) (kind : String) :
    require_description errors sp desc kind =
      (descText desc, errors ++ missingDiag sp kind desc) := by
  cases desc <;> simp [require_description, descText, missingDiag]

theorem strData_append (a b : String) : (a ++ b).data = a.data ++ b.data :=
  String.data_append a b

theorem strData_eq_nil (a : String) : a.data = [] ↔ a = "" := by
  constructor
  · intro h
    cases a
    simp_all
  · intro h
    simp [h]

theorem strAppend_ne_empty_left (a b : String) (h : a ≠ "") : a ++ b ≠ "" := by
  intro hc
  apply h
  have hd := congrArg String.data hc
  rw [strData_append] at hd
  have : a.data = [] := by
    rcases List.append_eq_nil.mp hd with ⟨h1, _⟩
    exact h1
  exact (strData_eq_nil a).mp this

theorem foldl_append_eq (g : α → String) (l : List α) (s : String) :
    l.foldl (fun o x => o ++ g x) s = s ++ strConcatMap g l := by
  induction l generalizing s with
  | nil => simp [strConcatMap]
  | cons x r ih => simp [strConcatMap, ih, String.append_assoc]

theorem strConcatMap_append (g : α → String) (l₁ l₂ : List α) :
    strConcatMap g (l₁ ++ l₂) = strConcatMap g l₁ ++ strConcatMap g l₂ := by
  induction l₁ with
  | nil => simp [strConcatMap]
  | cons x r ih => simp [strConcatMap, ih, String.append_assoc]

/-- The rendered text-help entry of one declared option. -/
def optionEntryText (f : StructField) : String :=
  option_description_format f.short (f.long_name.getD "") (descText f.description)

theorem option_description_eq (e : List Diag) (f : StructField) :
    option_description e f =
      (optionEntryText f, e ++ missingDiag f.span "field" f.description) := by
  simp [option_description, require_description_eq, optionEntryText]

theorem foldl_optdesc (l : List StructField) (s : String) (e : List Diag) :
    l.foldl
        (fun (st : String × List Diag) option =>
          (st.1 ++ (option_description st.2 option).1,
            (option_description st.2 option).2))
        (s, e) =
      (s ++ strConcatMap optionEntryText l,
        e ++ l.flatMap (fun f => missingDiag f.span "field" f.description)) := by
  have hfun : (fun (st : String × List Diag) option =>
      (st.1 ++ (option_description st.2 option).1,
        (option_description st.2 option).2)) =
      (fun (st : String × List Diag) option =>
        (st.1 ++ optionEntryText option,
          st.2 ++ missingDiag option.span "field" option.description)) := by
    funext st option
    rw [option_description_eq]
  rw [hfun]
  induction l generalizing s e with
  | nil => simp [strConcatMap]
  | cons f r ih =>
    simp only [List.foldl_cons]
    rw [ih]
    simp [strConcatMap, String.append_assoc]

/-- The JSON help entry of one declared option. -/
def jsonOptionEntry (f : StructField) : OptionHelp :=
  ⟨(match f.short with
      | some c => c.toString
      | none => ""),
    f.long_name.getD "", descText f.description⟩

theorem json_options_eq (e : List Diag) (fields : List StructField) :
    json_options e fields =
      ((fields.filter (fun f => f.long_name.isSome)).map jsonOptionEntry ++
          [⟨"", HELP_FLAG, HELP_DESCRIPTION⟩,
            ⟨"", HELP_JSON_FLAG, HELP_JSON_DESCRIPTION⟩],
        e ++ (fields.filter (fun f => f.long_name.isSome)).flatMap
          (fun f => missingDiag f.span "field" f.description)) := by
  have aux : ∀ (l : List StructField) (acc : List OptionHelp) (er : List Diag),
      l.foldl
          (fun (st : List OptionHelp × List Diag) option =>
            (st.1 ++
                [⟨(match option.short with
                    | some c => c.toString
                    | none => ""),
                  option.long_name.getD "",
                  (require_description st.2 option.span option.description "field").1⟩],
              (require_description st.2 option.span option.description "field").2))
          (acc, er) =
        (acc ++ l.map jsonOptionEntry,
          er ++ l.flatMap (fun f => missingDiag f.span "field" f.description)) := by
    have hfun : (fun (st : List OptionHelp × List Diag) option =>
        (st.1 ++
            [⟨(match option.short with
                | some c => c.toString
                | none => ""),
              option.long_name.getD "",
              (require_description st.2 option.span option.description "field").1⟩],
          (require_description st.2 option.span option.description "field").2)) =
        (fun (st : List OptionHelp × List Diag) option =>
          (st.1 ++ [jsonOptionEntry option],
            st.2 ++ missingDiag option.span "field" option.description)) := by
      funext st option
      rw [require_description_eq]
      rfl
    rw [hfun]
    intro l
    induction l with
    | nil => simp
    | cons f r ih =>
      intro acc er
      simp only [List.foldl_cons]
      rw [ih]
      simp [List.append_assoc]
  simp [json_options, aux, List.append_assoc]

theorem strConcatMap_map (h : β → String) (g : α → β) (l : List α) :
    strConcatMap h (l.map g) = strConcatMap (fun x => h (g x)) l := by
  induction l with
  | nil => simp [strConcatMap]
  | cons x r ih => simp [strConcatMap, ih]

theorem foldl_sepjoin (sep : String) (g : α → String) (l : List α)
    (hg : ∀ x ∈ l, g x ≠ "") :
    l.foldl
        (fun retval x => (if retval = "" then retval else retval ++ sep) ++ g x)
        "" =
      sepJoin sep (l.map g) := by
  have aux : ∀ (r : List α) (acc : String), acc ≠ "" →
      r.foldl
          (fun retval x => (if retval = "" then retval else retval ++ sep) ++ g x)
          acc =
        acc ++ strConcatMap (fun x => sep ++ g x) r := by
    intro r
    induction r with
    | nil => intro acc _; simp [strConcatMap]
    | cons x rest ih =>
      intro acc hacc
      have hstep : acc ++ sep ++ g x ≠ "" :=
        strAppend_ne_empty_left _ _ (strAppend_ne_empty_left _ _ hacc)
      simp only [List.foldl_cons, if_neg hacc]
      rw [ih _ hstep]
      simp [strConcatMap, String.append_assoc]
  cases l with
  | nil => simp [sepJoin]
  | cons x rest =>
    have hx : g x ≠ "" := hg x (List.mem_cons_self x rest)
    have h1 : (x :: rest).foldl
        (fun retval x => (if retval = "" then retval else retval ++ sep) ++ g x) "" =
        rest.foldl
          (fun retval x => (if retval = "" then retval else retval ++ sep) ++ g x)
          (g x) := by
      simp
    rw [h1, aux rest (g x) hx]
    simp [sepJoin, strConcatMap_map]

/-! ### Characterization of the escaping function -/

/-- The character-level escaping map: newline to the two characters
backslash-`n`, double quote to backslash-quote, everything else (including
backslashes and other control characters) unchanged. -/
def escJsonChar (c : Char) : List Char :=
  if c = '\n' then ['\\', 'n'] else if c = '"' then ['\\', '"'] else [c]

theorem concatMap_append (g : Char → List Char) (l₁ l₂ : List Char) :
    concatMap g (l₁ ++ l₂) = concatMap g l₁ ++ concatMap g l₂ := by
  induction l₁ with
  | nil => simp [concatMap]
  | cons c r ih => simp [concatMap, ih]

theorem concatMap_concatMap (f g : Char → List Char) (l : List Char) :
    concatMap g (concatMap f l) = concatMap (fun c => concatMap g (f c)) l := by
  induction l with
  | nil => simp [concatMap]
  | cons c r ih => simp [concatMap, concatMap_append, ih]

theorem concatMap_congr {f g : Char → List Char} (h : ∀ c, f c = g c)
    (l : List Char) : concatMap f l = concatMap g l := by
  induction l with
  | nil => simp [concatMap]
  | cons c r ih => simp [concatMap, h, ih]

theorem replaceCharsAux_singleton (a : Char) (r : List Char) :
    ∀ (fuel : Nat) (s : List Char), s.length ≤ fuel →
      replaceCharsAux [a] r s fuel =
        concatMap (fun c => if c = a then r else [c]) s := by
  intro fuel
  induction fuel with
  | zero =>
    intro s h
    cases s with
    | nil => simp [replaceCharsAux, concatMap]
    | cons c rest => simp at h
  | succ n ih =>
    intro s h
    cases s with
    | nil => simp [replaceCharsAux, concatMap]
    | cons c rest =>
      simp only [concatMap]
      by_cases hc : c = a
      · subst hc
        have hpre : [c].isPrefixOf (c :: rest) = true := by
          simp [List.isPrefixOf]
        simp only [replaceCharsAux]
        rw [if_pos ⟨hpre, by simp⟩]
        have hdrop : rest.drop ([c].length - 1) = rest := by simp
        rw [hdrop, ih rest (Nat.le_of_succ_le_succ h)]
        simp
      · have hpre : [a].isPrefixOf (c :: rest) = false := by
          simp only [List.isPrefixOf, List.isPrefixOf_nil_left, Bool.and_true]
          simp only [beq_eq_false_iff_ne, ne_eq]
          exact fun hac => hc hac.symm
        simp only [replaceCharsAux]
        rw [if_neg (by simp [hpre])]
        rw [ih rest (Nat.le_of_succ_le_succ h), if_neg hc]
        rfl

theorem escape_json_data (s : String) :
    (escape_json s).data = concatMap escJsonChar s.data := by
  have hn : ("\n" : String).data = ['\n'] := rfl
  have hrn : ("\\n" : String).data = ['\\', 'n'] := rfl
  have hq : ("\"" : String).data = ['"'] := rfl
  have hrq : ("\\\"" : String).data = ['\\', '"'] := rfl
  have step1 : (replaceStr s "\n" "\\n").data =
      concatMap (fun c => if c = '\n' then ['\\', 'n'] else [c]) s.data := by
    simp only [replaceStr, hn, hrn]
    exact replaceCharsAux_singleton '\n' ['\\', 'n'] s.data.length s.data
      (Nat.le_refl _)
  have step2 : (escape_json s).data =
      concatMap (fun c => if c = '"' then ['\\', '"'] else [c])
        (replaceStr s "\n" "\\n").data := by
    simp only [escape_json, replaceStr, hq, hrq]
    exact replaceCharsAux_singleton '"' ['\\', '"'] _ _ (Nat.le_refl _)
  rw [step2, step1, concatMap_concatMap]
  apply concatMap_congr
  intro c
  by_cases h1 : c = '\n'
  · subst h1
    simp [concatMap, escJsonChar]
  · by_cases h2 : c = '"'
    · subst h2
      simp [concatMap, escJsonChar]
    · simp [concatMap, escJsonChar, h1, h2]

/-! ### Substring occurrence lemmas -/

theorem isInfixOfChars_of_isPrefixOf (pat l : List Char)
    (h : pat.isPrefixOf l = true) : isInfixOfChars pat l = true := by
  cases l with
  | nil =>
    cases pat with
    | nil => simp [isInfixOfChars]
    | cons c r => simp [List.isPrefixOf] at h
  | cons c r => simp [isInfixOfChars, h]

theorem isInfixOfChars_append_right (pat l₁ l₂ : List Char)
    (h : isInfixOfChars pat l₂ = true) :
    isInfixOfChars pat (l₁ ++ l₂) = true := by
  induction l₁ with
  | nil => simpa
  | cons c r ih => simp [isInfixOfChars, ih]

theorem containsStr_of_parts (x pat y : String) :
    containsStr (x ++ (pat ++ y)) pat = true := by
  simp only [containsStr, strData_append]
  apply isInfixOfChars_append_right
  apply isInfixOfChars_of_isPrefixOf
  rw [List.isPrefixOf_iff_prefix]
  exact List.prefix_append _ _

theorem mem_of_isInfixOfChars (pat l : List Char) (c : Char)
    (h : isInfixOfChars pat l = true) (hc : c ∈ pat) : c ∈ l := by
  induction l with
  | nil =>
    simp [isInfixOfChars, List.isEmpty_iff] at h
    subst h
    exact absurd hc (List.not_mem_nil c)
  | cons d r ih =>
    simp only [isInfixOfChars, Bool.or_eq_true] at h
    rcases h with h | h
    · rw [List.isPrefixOf_iff_prefix] at h
      exact h.subset hc
    · exact List.mem_cons_of_mem d (ih h)

theorem not_containsStr_of_not_mem (s pat : String) (c : Char)
    (hc : c ∈ pat.data) (h : c ∉ s.data) : containsStr s pat = false := by
  by_contra hcon
  rw [Bool.not_eq_false] at hcon
  exact h (mem_of_isInfixOfChars pat.data s.data c hcon hc)

/-! ### Character-membership bounds for the string helpers -/

theorem mem_strTrim (s : String) (c : Char) (h : c ∈ (strTrim s).data) :
    c ∈ s.data := by
  simp only [strTrim] at h
  rw [List.mem_reverse] at h
  have h1 := (List.dropWhile_sublist _).subset h
  rw [List.mem_reverse] at h1
  exact (List.dropWhile_sublist _).subset h1

theorem mem_descText (d : Option String) (c : Char)
    (h : c ∈ (descText d).data) : ∃ s, d = some s ∧ c ∈ s.data := by
  cases d with
  | none => simp [descText] at h
  | some s => exact ⟨s, rfl, mem_strTrim s c h⟩

theorem mem_trimStartAux (pat : List Char) (c : Char) :
    ∀ (fuel : Nat) (s : List Char), c ∈ trimStartAux pat s fuel → c ∈ s := by
  intro fuel
  induction fuel with
  | zero => intro s h; simpa [trimStartAux] using h
  | succ n ih =>
    intro s h
    simp only [trimStartAux] at h
    split at h
    · exact (List.drop_subset _ _) (ih _ h)
    · exact h

theorem mem_trimStartMatches (s pat : String) (c : Char)
    (h : c ∈ (trimStartMatches s pat).data) : c ∈ s.data :=
  mem_trimStartAux pat.data c s.data.length s.data h

theorem mem_splitLinesAux (c : Char) :
    ∀ (s acc : List Char) (out : List Char),
      out ∈ splitLinesAux s acc → c ∈ out → c ∈ acc ∨ c ∈ s := by
  intro s
  induction s with
  | nil =>
    intro acc out hout hc
    simp [splitLinesAux] at hout
    subst hout
    left
    exact List.mem_reverse.mp hc
  | cons d r ih =>
    intro acc out hout hc
    simp only [splitLinesAux] at hout
    split at hout
    · rcases List.mem_cons.mp hout with h | h
      · subst h
        left
        exact List.mem_reverse.mp hc
      · rcases ih [] out h hc with h2 | h2
        · exact absurd h2 (List.not_mem_nil c)
        · right; exact List.mem_cons_of_mem d h2
    · rcases ih (d :: acc) out hout hc with h2 | h2
      · rcases List.mem_cons.mp h2 with h3 | h3
        · right; rw [h3]; exact List.mem_cons_self d r
        · left; exact h3
      · right; exact List.mem_cons_of_mem d h2

theorem mem_splitLines (v : String) (line : String) (c : Char)
    (hline : line ∈ splitLines v) (hc : c ∈ line.data) : c ∈ v.data := by
  simp only [splitLines, List.mem_map] at hline
  rcases hline with ⟨l, hl, rfl⟩
  rcases mem_splitLinesAux c v.data [] l hl hc with h | h
  · exact absurd h (List.not_mem_nil c)
  · exact h

/-! ### Structural decomposition of the two renderers -/

/-- The usage line of the text template. -/
def usageLineText (fields : List StructField) (subcommand : Option StructField) :
    String :=
  build_usage_command_line "Usage: {command_name}" fields subcommand

/-- The positional-arguments section of the text template (empty when there
is no positional field). -/
def posSectionText (fields : List StructField) : String :=
  if fields.filter (fun f => f.kind == FieldKind.Positional) = [] then ""
  else
    SECTION_SEPARATOR ++ "Positional Arguments:" ++
      strConcatMap positional_description
        (fields.filter (fun f => f.kind == FieldKind.Positional))

/-- The options section of the text template, synthetic entries included. -/
def optionsSectionText (fields : List StructField) : String :=
  SECTION_SEPARATOR ++ "Options:" ++
    strConcatMap optionEntryText (fields.filter (fun f => f.long_name.isSome)) ++
    option_description_format none HELP_FLAG HELP_DESCRIPTION ++
    option_description_format none HELP_JSON_FLAG HELP_JSON_DESCRIPTION

/-- The commands section of the text template. -/
def commandsSectionText : Option StructField → String
  | some _ => SECTION_SEPARATOR ++ "Commands:{subcommands}"
  | none => ""

/-- An examples/notes section of the text template. -/
def litsSectionText (heading : String) (lits : List String) : String :=
  if lits = [] then ""
  else
    SECTION_SEPARATOR ++ heading ++
      strConcatMap
        (fun value =>
          strConcatMap (fun line => "\n" ++ (INDENT ++ line)) (splitLines value))
        lits

/-- The error-codes section of the text template. -/
def errorCodesSectionText (codes : List (String × String)) : String :=
  if codes = [] then ""
  else
    SECTION_SEPARATOR ++ "Error codes:" ++
      strConcatMap (fun ct => "\n" ++ (INDENT ++ (ct.1 ++ (" " ++ ct.2)))) codes

theorem help_decomp (errors : List Diag) (attrs : TypeAttrs)
    (fields : List StructField) (subcommand : Option StructField) :
    help errors attrs fields subcommand =
      (usageLineText fields subcommand ++ SECTION_SEPARATOR ++
          descText attrs.description ++ posSectionText fields ++
          optionsSectionText fields ++ commandsSectionText subcommand ++
          litsSectionText "Examples:" attrs.examples ++
          litsSectionText "Notes:" attrs.notes ++
          errorCodesSectionText attrs.error_codes ++ "\n",
        errors ++ missingDiag call_site "type" attrs.description ++
          (fields.filter (fun f => f.long_name.isSome)).flatMap
            (fun f => missingDiag f.span "field" f.description)) := by
  cases subcommand <;>
    by_cases hp : fields.filter (fun f => f.kind == FieldKind.Positional) = [] <;>
    by_cases hex : attrs.examples = [] <;>
    by_cases hn : attrs.notes = [] <;>
    by_cases he : attrs.error_codes = [] <;>
      simp [help, lits_section, require_description_eq, foldl_optdesc,
        foldl_append_eq, usageLineText, posSectionText, optionsSectionText,
        commandsSectionText, litsSectionText, errorCodesSectionText,
        hp, hex, hn, he, String.append_assoc, List.append_assoc]

/-- The JSON entry of one positional field. -/
def jsonPosEntry (arg : StructField) : PositionalHelp :=
  ⟨arg.arg_name, descText arg.description⟩

/-- The JSON entry of one error code (note the escaping applied already at
collection time). -/
def jsonErrEntry (ct : String × String) : PositionalHelp :=
  ⟨ct.1, escape_json ct.2⟩

/-- The runtime-rendered subcommands array contents of the JSON document. -/
def subcommandsJson : Option StructField → List (String × String) → String
  | some _, cmds =>
    sepJoin ",\n    "
      (cmds.map (fun cmd =>
        "\x7b\"name\": \"" ++ cmd.1 ++ "\", \"description\": \"" ++ cmd.2 ++
          "\"\x7d"))
  | none, _ => ""

/-- The emitted examples value of the JSON document: the escaped
concatenation of the example literals, format-expanded exactly when it
contains the interpolation token. -/
def examplesValueJson (attrs : TypeAttrs) (command_name : String) : String :=
  if containsStr (escape_json (strConcatMap (fun lit => lit) attrs.examples))
      "{command_name}" then
    substCommandName
      (escape_json (strConcatMap (fun lit => lit) attrs.examples)) command_name
  else escape_json (strConcatMap (fun lit => lit) attrs.examples)

/-- The emitted notes value of the JSON document, like
`examplesValueJson`. -/
def notesValueJson (attrs : TypeAttrs) (command_name : String) : String :=
  if containsStr (escape_json (strConcatMap (fun lit => lit) attrs.notes))
      "{command_name}" then
    substCommandName
      (escape_json (strConcatMap (fun lit => lit) attrs.notes)) command_name
  else escape_json (strConcatMap (fun lit => lit) attrs.notes)

theorem foldl_id_append (l : List String) :
    l.foldl (fun e lit => e ++ lit) "" = strConcatMap (fun lit => lit) l := by
  have h := foldl_append_eq (fun lit : String => lit) l ""
  simpa using h

theorem help_json_decomp (errors : List Diag) (attrs : TypeAttrs)
    (fields : List StructField) (subcommand : Option StructField)
    (command_name : String) (commands : List (String × String)) :
    help_json errors attrs fields subcommand command_name commands =
      ("\x7b\n" ++ "\"usage\": \"" ++
          substCommandName
            (build_usage_command_line "{command_name}" fields subcommand)
            command_name ++ "\",\n" ++
          "\"description\": \"" ++ escape_json (descText attrs.description) ++
          "\",\n" ++
          "\"options\": [" ++
          option_elements_json
            ((fields.filter (fun f => f.long_name.isSome)).map jsonOptionEntry ++
              [⟨"", HELP_FLAG, HELP_DESCRIPTION⟩,
                ⟨"", HELP_JSON_FLAG, HELP_JSON_DESCRIPTION⟩]) ++ "],\n" ++
          "\"positional\": [" ++
          help_elements_json
            ((fields.filter (fun f => f.kind == FieldKind.Positional)).map
              jsonPosEntry) ++ "],\n" ++
          "\"examples\": \"" ++ examplesValueJson attrs command_name ++ "\",\n" ++
          "\"notes\": \"" ++ notesValueJson attrs command_name ++ "\",\n" ++
          "\"error_codes\": [" ++
          help_elements_json
            (if attrs.error_codes = [] then []
              else attrs.error_codes.map jsonErrEntry) ++ "],\n" ++
          "\"subcommands\": [" ++ subcommandsJson subcommand commands ++ "]\n" ++
          "\x7d\n",
        errors ++
          (fields.filter (fun f => f.long_name.isSome)).flatMap
            (fun f => missingDiag f.span "field" f.description) ++
          missingDiag call_site "type" attrs.description) := by
  have hpos : (fun (arg : StructField) =>
      PositionalHelp.mk arg.arg_name
        (match arg.description with
          | some desc => strTrim desc
          | none => "")) = jsonPosEntry := by
    funext arg
    cases h : arg.description <;> simp [jsonPosEntry, descText, h]
  have herr : (fun (ct : String × String) =>
      PositionalHelp.mk ct.1 (escape_json ct.2)) = jsonErrEntry := by
    funext ct
    rfl
  have hcmds : commands.foldl
      (fun subcommands cmd =>
        (if subcommands = "" then subcommands else subcommands ++ ",\n    ") ++
          ("\x7b\"name\": \"" ++
            (cmd.1 ++ ("\", \"description\": \"" ++ (cmd.2 ++ "\"\x7d")))))
      "" =
      sepJoin ",\n    "
        (commands.map (fun cmd =>
          "\x7b\"name\": \"" ++
            (cmd.1 ++ ("\", \"description\": \"" ++ (cmd.2 ++ "\"\x7d"))))) := by
    apply foldl_sepjoin
    intro x _
    apply strAppend_ne_empty_left
    decide
  cases subcommand <;>
    simp [help_json, json_options_eq, require_description_eq, hpos, herr,
      hcmds, subcommandsJson, examplesValueJson, notesValueJson,
      foldl_id_append, String.append_assoc, List.append_assoc]

/-! ### Prefix and suffix helper lemmas -/

theorem strStartsWith_append (x y : String) : strStartsWith (x ++ y) x = true := by
  simp only [strStartsWith, strData_append]
  rw [List.isPrefixOf_iff_prefix]
  exact List.prefix_append _ _

theorem strEndsWith_append (x y : String) : strEndsWith (x ++ y) y = true := by
  simp only [strEndsWith, strData_append]
  rw [List.isSuffixOf_iff_suffix]
  exact List.suffix_append _ _

theorem isPrefixOf_single_cons (a c : Char) (l : List Char) :
    [a].isPrefixOf (c :: l) = (a == c) := by
  simp [List.isPrefixOf]

theorem isSuffixOf_single_append (a c : Char) (l : List Char) :
    [a].isSuffixOf (l ++ [c]) = (a == c) := by
  simp only [List.isSuffixOf, List.reverse_append, List.reverse_cons,
    List.reverse_nil, List.nil_append, List.reverse_singleton]
  exact isPrefixOf_single_cons a c l.reverse

theorem strStartsWith_false_of_head (s : String) (c : Char) (l : List Char)
    (h : s.data = c :: l) (a : Char) (hne : (a == c) = false) (p : String)
    (hp : p.data = [a]) : strStartsWith s p = false := by
  simp [strStartsWith, hp, h, isPrefixOf_single_cons, hne]

theorem strEndsWith_false_of_last (s : String) (c : Char) (l : List Char)
    (h : s.data = l ++ [c]) (a : Char) (hne : (a == c) = false) (p : String)
    (hp : p.data = [a]) : strEndsWith s p = false := by
  simp [strEndsWith, hp, h, isSuffixOf_single_append, hne]

theorem data_of_startsWith_dashdash (s : String)
    (h : strStartsWith s "--" = true) : ∃ t, s.data = '-' :: '-' :: t := by
  simp only [strStartsWith] at h
  rw [List.isPrefixOf_iff_prefix] at h
  rcases h with ⟨t, ht⟩
  exact ⟨t, ht.symm⟩

/-! ### Claims -/

/-- C6: the JSON-escaping function replaces every newline with the
two-character sequence backslash-`n` and every double quote with
backslash-quote and performs no other substitution: backslashes, control
characters and all other characters pass through unchanged.  This is the
character-wise reading of `escape_json`, whose two successive `replace`
passes are shown to act independently on each character via
`escJsonChar`. -/
theorem claim_C6 (s : String) :
    escape_json s = String.mk (concatMap escJsonChar s.data) :=
  String.ext (escape_json_data s)

/-- C10: rendering the same descriptor twice with the same runtime
command-name and sub-command inputs yields byte-identical output, for both
the text renderer (`renderHelp`) and the JSON renderer (`help_json`): both
are pure functions of their inputs. -/
theorem claim_C10 (e₁ e₂ : List Diag) (a₁ a₂ : TypeAttrs)
    (f₁ f₂ : List StructField) (s₁ s₂ : Option StructField) (n₁ n₂ : String)
    (t₁ t₂ : String) (c₁ c₂ : List (String × String))
    (he : e₁ = e₂) (ha : a₁ = a₂) (hf : f₁ = f₂) (hs : s₁ = s₂) (hn : n₁ = n₂)
    (ht : t₁ = t₂) (hc : c₁ = c₂) :
    renderHelp e₁ a₁ f₁ s₁ n₁ t₁ = renderHelp e₂ a₂ f₂ s₂ n₂ t₂ ∧
    help_json e₁ a₁ f₁ s₁ n₁ c₁ = help_json e₂ a₂ f₂ s₂ n₂ c₂ := by
  subst he ha hf hs hn ht hc
  exact ⟨rfl, rfl⟩

/-- Example command attributes used by the witness theorems: the §8 spec
scenario (`mytool`, positional `foo`, repeating option `--tag`). -/
def exAttrs : TypeAttrs := ⟨some "does a thing", [], [], []⟩

/-- Example positional field `foo` of the §8 spec scenario. -/
def exFoo : StructField :=
  ⟨"foo", 1, FieldKind.Positional, Optionality.Required, none, none, none,
    some "the input file"⟩

/-- Example option field `--tag` of the §8 spec scenario. -/
def exTag : StructField :=
  ⟨"tag", 2, FieldKind.Option, Optionality.Repeating, some "--tag", some 't',
    some "tag", some "a tag"⟩

/-- Witness for C10: the determinism theorem applied at the concrete §8
scenario inputs. -/
theorem claim_C10_witness :
    renderHelp [] exAttrs [exFoo, exTag] none "mytool" "" =
        renderHelp [] exAttrs [exFoo, exTag] none "mytool" "" ∧
      help_json [] exAttrs [exFoo, exTag] none "mytool" [] =
        help_json [] exAttrs [exFoo, exTag] none "mytool" [] :=
  claim_C10 [] [] exAttrs exAttrs [exFoo, exTag] [exFoo, exTag] none none
    "mytool" "mytool" "" "" [] [] rfl rfl rfl rfl rfl rfl rfl

theorem build_usage_command_line_eq (out : String)
    (fields : List StructField) (sub : Option StructField) :
    build_usage_command_line out fields sub =
      out ++
        strConcatMap (fun f => " " ++ positional_usage f)
          (fields.filter (fun f => f.kind == FieldKind.Positional)) ++
        strConcatMap (fun f => " " ++ option_usage f)
          (fields.filter (fun f => f.long_name.isSome)) ++
        (match sub with
          | some s =>
            if s.optionality.is_required then " <command> [<args>]"
            else " [<command>] [<args>]"
          | none => "") := by
  cases sub with
  | none =>
    simp [build_usage_command_line, foldl_append_eq, String.append_assoc]
  | some s =>
    cases hb : s.optionality.is_required <;>
      simp [build_usage_command_line, foldl_append_eq, hb,
        String.append_assoc]

/-- C4: the usage line emits all positional fields (declaration order)
strictly before all long-named fields, with the sub-command fragment
(bracketed `<command>` exactly when the sub-command field is not required,
followed by ` [<args>]`) last; no other interleaving occurs. -/
theorem claim_C4 (out : String) (fields : List StructField)
    (sub : Option StructField) :
    build_usage_command_line out fields sub =
      out ++
        strConcatMap (fun f => " " ++ positional_usage f)
          (fields.filter (fun f => f.kind == FieldKind.Positional)) ++
        strConcatMap (fun f => " " ++ option_usage f)
          (fields.filter (fun f => f.long_name.isSome)) ++
        (match sub with
          | some s =>
            if s.optionality.is_required then " <command> [<args>]"
            else " [<command>] [<args>]"
          | none => "") :=
  build_usage_command_line_eq out fields sub

/-! ### Analysis of the usage fragments (for C3) -/

/-- The flag-name part of an option usage fragment (`-s` when a short name
exists, the long name otherwise). -/
def option_usage_name (field : StructField) : String :=
  match field.short with
  | some short => "-" ++ short.toString
  | none => field.long_name.getD ""

/-- The value-placeholder part of an option usage fragment (empty for
switches, ` <arg...>` for value-taking options). -/
def option_usage_value (field : StructField) : String :=
  match field.kind with
  | FieldKind.SubCommand | FieldKind.Positional => ""
  | FieldKind.Switch => ""
  | FieldKind.Option =>
    " <" ++
      (match field.arg_name_override with
        | some arg_name => arg_name
        | none => trimStartMatches (field.long_name.getD "") "--") ++
      (if field.optionality = Optionality.Repeating then "..." else "") ++ ">"

theorem option_usage_eq (f : StructField) :
    option_usage f =
      if f.optionality.is_required then
        option_usage_name f ++ option_usage_value f
      else "[" ++ (option_usage_name f ++ option_usage_value f) ++ "]" := rfl

theorem strEndsWith_right (x p s : String) (h : strEndsWith s p = true) :
    strEndsWith (x ++ s) p = true := by
  simp only [strEndsWith, strData_append] at h ⊢
  rw [List.isSuffixOf_iff_suffix] at h ⊢
  exact h.trans (List.suffix_append _ _)

theorem option_usage_head_dash (f : StructField) (long : String)
    (hlong : f.long_name = some long) (hdash : strStartsWith long "--" = true) :
    ∃ t, (option_usage_name f ++ option_usage_value f).data = '-' :: t := by
  cases hsh : f.short with
  | some c =>
    have hct : (Char.toString c).data = [c] := rfl
    exact ⟨c :: (option_usage_value f).data, by
      simp [option_usage_name, hsh, strData_append, hct]⟩
  | none =>
    obtain ⟨t, ht⟩ := data_of_startsWith_dashdash long hdash
    exact ⟨'-' :: (t ++ (option_usage_value f).data), by
      simp [option_usage_name, hsh, hlong, strData_append, ht]⟩

/-- Example repeating switch used by the C3 counterexample. -/
def exVerbose : StructField :=
  ⟨"verbose", 3, FieldKind.Switch, Optionality.Repeating, some "--verbose",
    none, none, some "verbosity"⟩

/-- C3 counterexample: a field of Switch kind with Repeating optionality
renders in the usage line as `[--verbose]` — bracketed, but with no
trailing `...` anywhere — contradicting the claim that every Repeating
field's placeholder (positional, switch, or value-taking option alike)
ends in `...` inside its brackets. -/
theorem claim_C3_counterexample :
    option_usage exVerbose = "[--verbose]" ∧
    strEndsWith (option_usage exVerbose) "...]" = false ∧
    containsStr (option_usage exVerbose) "..." = false := by
  decide

/-- C3 (amended): a usage-line fragment is enclosed in square brackets iff
the field's optionality is not Required (for positional fields outright;
for long-named fields under the schema invariants that the long name is
dash-led and short names are ordinary characters), and a Repeating
positional or value-taking Option field's placeholder ends in `...>` inside
its brackets.  Repeating fields of Switch kind carry no `...` (see the
counterexample). -/
theorem claim_C3 (f : StructField) :
    (f.kind = FieldKind.Positional →
      ((strStartsWith (positional_usage f) "[" = true ∧
          strEndsWith (positional_usage f) "]" = true) ↔
        f.optionality.is_required = false) ∧
      (f.optionality = Optionality.Repeating →
        strEndsWith (positional_usage f) "...>]" = true)) ∧
    (∀ long, f.long_name = some long →
      strStartsWith long "--" = true →
      ((strStartsWith (option_usage f) "[" = true ∧
          strEndsWith (option_usage f) "]" = true) ↔
        f.optionality.is_required = false) ∧
      (f.kind = FieldKind.Option → f.optionality = Optionality.Repeating →
        strEndsWith (option_usage f) "...>]" = true)) := by
  constructor
  · intro _hkind
    constructor
    · cases ho : f.optionality with
      | Required =>
        have hd : (positional_usage f).data =
            '<' :: (f.arg_name.data ++ ['>']) := by
          have h1 : ("<" : String).data = ['<'] := rfl
          have h2 : (">" : String).data = ['>'] := rfl
          simp [positional_usage, ho, Optionality.is_required, strData_append,
            h1, h2]
        have hA : strStartsWith (positional_usage f) "[" = false :=
          strStartsWith_false_of_head _ '<' _ hd '[' (by decide) "[" rfl
        simp [Optionality.is_required, hA]
      | Optional =>
        have he : positional_usage f = "[" ++ ("<" ++ (f.arg_name ++ ">]")) := by
          simp [positional_usage, ho, Optionality.is_required,
            String.append_assoc]
        rw [he]
        simp only [Optionality.is_required, iff_true]
        constructor
        · exact strStartsWith_append "[" _
        · apply strEndsWith_right
          apply strEndsWith_right
          apply strEndsWith_right
          decide
      | Repeating =>
        have he : positional_usage f =
            "[" ++ ("<" ++ (f.arg_name ++ "...>]")) := by
          simp [positional_usage, ho, Optionality.is_required,
            String.append_assoc]
        rw [he]
        simp only [Optionality.is_required, iff_true]
        constructor
        · exact strStartsWith_append "[" _
        · apply strEndsWith_right
          apply strEndsWith_right
          apply strEndsWith_right
          decide
    · intro hrep
      have he : positional_usage f =
          "[" ++ ("<" ++ (f.arg_name ++ "...>]")) := by
        simp [positional_usage, hrep, Optionality.is_required,
          String.append_assoc]
      rw [he]
      apply strEndsWith_right
      apply strEndsWith_right
      exact strEndsWith_append _ _
  · intro long hlong hdash
    constructor
    · cases ho : f.optionality with
      | Required =>
        have hu : option_usage f =
            option_usage_name f ++ option_usage_value f := by
          rw [option_usage_eq]
          simp [ho, Optionality.is_required]
        obtain ⟨t, ht⟩ := option_usage_head_dash f long hlong hdash
        have hA : strStartsWith (option_usage f) "[" = false := by
          rw [hu]
          exact strStartsWith_false_of_head _ '-' t ht '[' (by decide) "[" rfl
        simp [Optionality.is_required, hA]
      | Optional =>
        have hu : option_usage f =
            "[" ++ ((option_usage_name f ++ option_usage_value f) ++ "]") := by
          rw [option_usage_eq]
          simp [ho, Optionality.is_required, String.append_assoc]
        rw [hu]
        simp only [Optionality.is_required, iff_true]
        exact ⟨strStartsWith_append "[" _,
          strEndsWith_right _ _ _ (strEndsWith_append _ "]")⟩
      | Repeating =>
        have hu : option_usage f =
            "[" ++ ((option_usage_name f ++ option_usage_value f) ++ "]") := by
          rw [option_usage_eq]
          simp [ho, Optionality.is_required, String.append_assoc]
        rw [hu]
        simp only [Optionality.is_required, iff_true]
        exact ⟨strStartsWith_append "[" _,
          strEndsWith_right _ _ _ (strEndsWith_append _ "]")⟩
    · intro hk hrep
      cases hsh : f.short with
      | some c =>
        cases hov : f.arg_name_override with
        | some a =>
          have he : option_usage f =
              "[" ++ ("-" ++ (c.toString ++ (" <" ++ (a ++ "...>]")))) := by
            simp [option_usage, hlong, hk, hrep, hov, hsh,
              Optionality.is_required, String.append_assoc]
          rw [he]
          apply strEndsWith_right
          apply strEndsWith_right
          apply strEndsWith_right
          apply strEndsWith_right
          exact strEndsWith_append _ _
        | none =>
          have he : option_usage f =
              "[" ++ ("-" ++ (c.toString ++
                (" <" ++ (trimStartMatches long "--" ++ "...>]")))) := by
            simp [option_usage, hlong, hk, hrep, hov, hsh,
              Optionality.is_required, String.append_assoc]
          rw [he]
          apply strEndsWith_right
          apply strEndsWith_right
          apply strEndsWith_right
          apply strEndsWith_right
          exact strEndsWith_append _ _
      | none =>
        cases hov : f.arg_name_override with
        | some a =>
          have he : option_usage f =
              "[" ++ (long ++ (" <" ++ (a ++ "...>]"))) := by
            simp [option_usage, hlong, hk, hrep, hov, hsh,
              Optionality.is_required, String.append_assoc]
          rw [he]
          apply strEndsWith_right
          apply strEndsWith_right
          apply strEndsWith_right
          exact strEndsWith_append _ _
        | none =>
          have he : option_usage f =
              "[" ++ (long ++
                (" <" ++ (trimStartMatches long "--" ++ "...>]"))) := by
            simp [option_usage, hlong, hk, hrep, hov, hsh,
              Optionality.is_required, String.append_assoc]
          rw [he]
          apply strEndsWith_right
          apply strEndsWith_right
          apply strEndsWith_right
          exact strEndsWith_append _ _

/-- Witness for C3: the amended claim applied to the concrete repeating
`--tag` option of the §8 scenario — its fragment is bracketed and ends in
`...>` inside the brackets. -/
theorem claim_C3_witness :
    (strStartsWith (option_usage exTag) "[" = true ∧
      strEndsWith (option_usage exTag) "]" = true) ∧
    strEndsWith (option_usage exTag) "...>]" = true := by
  have h := (claim_C3 exTag).2 "--tag" rfl (by decide)
  exact ⟨h.1.mpr (by decide), h.2 rfl rfl⟩

/-! ### Serialized JSON array elements -/

/-- The serialized form of one options-array element: short and long names
inserted raw, description escaped. -/
def optionElementStr (opt : OptionHelp) : String :=
  "\x7b\"short\": \"" ++ opt.short ++ "\", \"long\": \"" ++ opt.long ++
    "\", \"description\": \"" ++ escape_json opt.description ++ "\"\x7d"

/-- The serialized form of one name/description array element: name
inserted raw, description escaped. -/
def helpElementStr (pos : PositionalHelp) : String :=
  "\x7b\"name\": \"" ++ pos.name ++ "\", \"description\": \"" ++
    escape_json pos.description ++ "\"\x7d"

theorem optionElementStr_ne_empty (opt : OptionHelp) :
    optionElementStr opt ≠ "" := by
  apply strAppend_ne_empty_left
  apply strAppend_ne_empty_left
  apply strAppend_ne_empty_left
  apply strAppend_ne_empty_left
  apply strAppend_ne_empty_left
  apply strAppend_ne_empty_left
  decide

theorem helpElementStr_ne_empty (pos : PositionalHelp) :
    helpElementStr pos ≠ "" := by
  apply strAppend_ne_empty_left
  apply strAppend_ne_empty_left
  apply strAppend_ne_empty_left
  apply strAppend_ne_empty_left
  decide

theorem option_elements_json_eq (options : List OptionHelp) :
    option_elements_json options =
      sepJoin ",\n    " (options.map optionElementStr) :=
  foldl_sepjoin ",\n    " optionElementStr options
    (fun x _ => optionElementStr_ne_empty x)

theorem help_elements_json_eq (elements : List PositionalHelp) :
    help_elements_json elements =
      sepJoin ",\n    " (elements.map helpElementStr) :=
  foldl_sepjoin ",\n    " helpElementStr elements
    (fun x _ => helpElementStr_ne_empty x)

theorem sepJoin_snoc2 (sep : String) (l : List String) (a b : String) :
    ∃ pre, sepJoin sep (l ++ [a, b]) = pre ++ (a ++ (sep ++ b)) := by
  cases l with
  | nil =>
    refine ⟨"", ?_⟩
    simp [sepJoin, strConcatMap, String.append_assoc]
  | cons x r =>
    refine ⟨x ++ (strConcatMap (fun y => sep ++ y) r ++ sep), ?_⟩
    simp [sepJoin, strConcatMap_append, strConcatMap, String.append_assoc]

theorem containsStr_of_eq (s x pat y : String) (h : s = x ++ (pat ++ y)) :
    containsStr s pat = true := by
  rw [h]
  exact containsStr_of_parts x pat y

set_option maxRecDepth 4000 in
/-- C5: for every schema (zero declared options included), the options
listing ends with exactly the synthetic `--help` then `--help-json`
entries appended last: the collected JSON options list ends with the two
entries, the emitted JSON options array ends with their two serialized
objects directly before the array close, the text document renders their
two entries consecutively, and the text document is exactly the
concatenation in which the Options section renders all declared long-named
entries first and the two synthetic entries last, directly before the next
section. -/
theorem claim_C5 (errors : List Diag) (attrs : TypeAttrs)
    (fields : List StructField) (sub : Option StructField) (cn : String)
    (cmds : List (String × String)) :
    (∃ pre, (json_options errors fields).1 =
        pre ++ [⟨"", HELP_FLAG, HELP_DESCRIPTION⟩,
          ⟨"", HELP_JSON_FLAG, HELP_JSON_DESCRIPTION⟩]) ∧
    containsStr (help_json errors attrs fields sub cn cmds).1
        "\x7b\"short\": \"\", \"long\": \"--help\", \"description\": \"display usage information\"\x7d,\n    \x7b\"short\": \"\", \"long\": \"--help-json\", \"description\": \"display usage information encoded in JSON\"\x7d],\n" =
      true ∧
    containsStr (help errors attrs fields sub).1
        "\n  --help  display usage information\n  --help-json  display usage information encoded in JSON" =
      true ∧
    (help errors attrs fields sub).1 =
      usageLineText fields sub ++ SECTION_SEPARATOR ++
        descText attrs.description ++ posSectionText fields ++
        SECTION_SEPARATOR ++ "Options:" ++
        strConcatMap optionEntryText
          (fields.filter (fun f => f.long_name.isSome)) ++
        option_description_format none HELP_FLAG HELP_DESCRIPTION ++
        option_description_format none HELP_JSON_FLAG
          HELP_JSON_DESCRIPTION ++
        commandsSectionText sub ++
        litsSectionText "Examples:" attrs.examples ++
        litsSectionText "Notes:" attrs.notes ++
        errorCodesSectionText attrs.error_codes ++ "\n" := by
  refine ⟨⟨(fields.filter (fun f => f.long_name.isSome)).map jsonOptionEntry,
      by simp [json_options_eq]⟩, ?_, ?_, ?_⟩
  · have hmap : (((fields.filter (fun f => f.long_name.isSome)).map
        jsonOptionEntry ++
          ([⟨"", HELP_FLAG, HELP_DESCRIPTION⟩,
            ⟨"", HELP_JSON_FLAG, HELP_JSON_DESCRIPTION⟩] :
            List OptionHelp)).map optionElementStr) =
        ((fields.filter (fun f => f.long_name.isSome)).map
          jsonOptionEntry).map optionElementStr ++
          [optionElementStr ⟨"", HELP_FLAG, HELP_DESCRIPTION⟩,
            optionElementStr ⟨"", HELP_JSON_FLAG, HELP_JSON_DESCRIPTION⟩] := by
      simp only [List.map_append, List.map_cons, List.map_nil]
    obtain ⟨pre, hpre⟩ := sepJoin_snoc2 ",\n    "
      (((fields.filter (fun f => f.long_name.isSome)).map
        jsonOptionEntry).map optionElementStr)
      (optionElementStr ⟨"", HELP_FLAG, HELP_DESCRIPTION⟩)
      (optionElementStr ⟨"", HELP_JSON_FLAG, HELP_JSON_DESCRIPTION⟩)
    have hmain : (help_json errors attrs fields sub cn cmds).1 =
        ("\x7b\n" ++ "\"usage\": \"" ++
            substCommandName
              (build_usage_command_line "{command_name}" fields sub) cn ++
            "\",\n" ++ "\"description\": \"" ++
            escape_json (descText attrs.description) ++ "\",\n" ++
            "\"options\": [" ++ pre) ++
          ((optionElementStr ⟨"", HELP_FLAG, HELP_DESCRIPTION⟩ ++
              (",\n    " ++
                (optionElementStr ⟨"", HELP_JSON_FLAG, HELP_JSON_DESCRIPTION⟩ ++
                  "],\n"))) ++
            ("\"positional\": [" ++
              help_elements_json
                ((fields.filter (fun f => f.kind == FieldKind.Positional)).map
                  jsonPosEntry) ++ "],\n" ++
              "\"examples\": \"" ++ examplesValueJson attrs cn ++ "\",\n" ++
              "\"notes\": \"" ++ notesValueJson attrs cn ++ "\",\n" ++
              "\"error_codes\": [" ++
              help_elements_json
                (if attrs.error_codes = [] then []
                  else attrs.error_codes.map jsonErrEntry) ++ "],\n" ++
              "\"subcommands\": [" ++ subcommandsJson sub cmds ++ "]\n" ++
              "\x7d\n")) := by
      simp only [help_json_decomp]
      rw [option_elements_json_eq, hmap, hpre]
      simp only [String.append_assoc]
    have h1 := containsStr_of_eq _ _ _ _ hmain
    rw [show (optionElementStr ⟨"", HELP_FLAG, HELP_DESCRIPTION⟩ ++
        (",\n    " ++
          (optionElementStr ⟨"", HELP_JSON_FLAG, HELP_JSON_DESCRIPTION⟩ ++
            "],\n"))) =
        "\x7b\"short\": \"\", \"long\": \"--help\", \"description\": \"display usage information\"\x7d,\n    \x7b\"short\": \"\", \"long\": \"--help-json\", \"description\": \"display usage information encoded in JSON\"\x7d],\n"
      from rfl] at h1
    exact h1
  · have hmain : (help errors attrs fields sub).1 =
        (usageLineText fields sub ++ SECTION_SEPARATOR ++
            descText attrs.description ++ posSectionText fields ++
            SECTION_SEPARATOR ++ "Options:" ++
            strConcatMap optionEntryText
              (fields.filter (fun f => f.long_name.isSome))) ++
          ((option_description_format none HELP_FLAG HELP_DESCRIPTION ++
              option_description_format none HELP_JSON_FLAG
                HELP_JSON_DESCRIPTION) ++
            (commandsSectionText sub ++
              litsSectionText "Examples:" attrs.examples ++
              litsSectionText "Notes:" attrs.notes ++
              errorCodesSectionText attrs.error_codes ++ "\n")) := by
      simp only [help_decomp, optionsSectionText]
      simp only [String.append_assoc]
    have h1 := containsStr_of_eq _ _ _ _ hmain
    rw [show (option_description_format none HELP_FLAG HELP_DESCRIPTION ++
        option_description_format none HELP_JSON_FLAG HELP_JSON_DESCRIPTION) =
        "\n  --help  display usage information\n  --help-json  display usage information encoded in JSON"
      from rfl] at h1
    exact h1
  · simp only [help_decomp, optionsSectionText]
    simp only [String.append_assoc]

/-- C7: in the JSON output the `examples` and `notes` values are each the
no-separator concatenation of their literals, escaped, with the
`{command_name}` token substituted at render time exactly when the escaped
concatenation contains the token, and inserted verbatim otherwise. -/
theorem claim_C7 (errors : List Diag) (attrs : TypeAttrs)
    (fields : List StructField) (sub : Option StructField) (cn : String)
    (cmds : List (String × String)) :
    ∃ pre post,
      (help_json errors attrs fields sub cn cmds).1 =
        pre ++ ("\"examples\": \"" ++ (examplesValueJson attrs cn ++
          ("\",\n" ++ ("\"notes\": \"" ++ (notesValueJson attrs cn ++
            ("\",\n" ++ post)))))) ∧
      examplesValueJson attrs cn =
        (if containsStr (escape_json (strConcatMap (fun lit => lit)
            attrs.examples)) "{command_name}" then
          substCommandName
            (escape_json (strConcatMap (fun lit => lit) attrs.examples)) cn
        else escape_json (strConcatMap (fun lit => lit) attrs.examples)) ∧
      notesValueJson attrs cn =
        (if containsStr (escape_json (strConcatMap (fun lit => lit)
            attrs.notes)) "{command_name}" then
          substCommandName
            (escape_json (strConcatMap (fun lit => lit) attrs.notes)) cn
        else escape_json (strConcatMap (fun lit => lit) attrs.notes)) := by
  refine ⟨"\x7b\n" ++ "\"usage\": \"" ++
      substCommandName (build_usage_command_line "{command_name}" fields sub)
        cn ++ "\",\n" ++
      "\"description\": \"" ++ escape_json (descText attrs.description) ++
      "\",\n" ++
      "\"options\": [" ++
      option_elements_json
        ((fields.filter (fun f => f.long_name.isSome)).map jsonOptionEntry ++
          [⟨"", HELP_FLAG, HELP_DESCRIPTION⟩,
            ⟨"", HELP_JSON_FLAG, HELP_JSON_DESCRIPTION⟩]) ++ "],\n" ++
      "\"positional\": [" ++
      help_elements_json
        ((fields.filter (fun f => f.kind == FieldKind.Positional)).map
          jsonPosEntry) ++ "],\n",
    "\"error_codes\": [" ++
      help_elements_json
        (if attrs.error_codes = [] then []
          else attrs.error_codes.map jsonErrEntry) ++ "],\n" ++
      "\"subcommands\": [" ++ subcommandsJson sub cmds ++ "]\n" ++ "\x7d\n",
    ?_, rfl, rfl⟩
  simp only [help_json_decomp]
  simp only [String.append_assoc]

/-! ### Membership of array elements in the emitted JSON (for C1 and C9) -/

theorem strConcatMap_mem (g : α → String) (l : List α) (x : α) (h : x ∈ l) :
    ∃ u v, strConcatMap g l = u ++ (g x ++ v) := by
  induction l with
  | nil => exact absurd h (List.not_mem_nil x)
  | cons a r ih =>
    rcases List.mem_cons.mp h with h1 | h1
    · subst h1
      exact ⟨"", strConcatMap g r, by simp [strConcatMap]⟩
    · obtain ⟨u, v, hu⟩ := ih h1
      exact ⟨g a ++ u, v, by simp [strConcatMap, hu, String.append_assoc]⟩

theorem sepJoin_mem (sep : String) (l : List String) (x : String)
    (h : x ∈ l) : ∃ u v, sepJoin sep l = u ++ (x ++ v) := by
  cases l with
  | nil => exact absurd h (List.not_mem_nil x)
  | cons a r =>
    rcases List.mem_cons.mp h with h1 | h1
    · subst h1
      exact ⟨"", strConcatMap (fun b => sep ++ b) r, by simp [sepJoin]⟩
    · obtain ⟨u, v, hu⟩ := strConcatMap_mem (fun b => sep ++ b) r x h1
      exact ⟨a ++ (u ++ sep), v, by
        simp [sepJoin, hu, String.append_assoc]⟩

theorem help_json_contains_option_element (errors : List Diag)
    (attrs : TypeAttrs) (fields : List StructField)
    (sub : Option StructField) (cn : String) (cmds : List (String × String))
    (opt : OptionHelp) (h : opt ∈ (json_options errors fields).1) :
    containsStr (help_json errors attrs fields sub cn cmds).1
      (optionElementStr opt) = true := by
  rw [json_options_eq] at h
  have hmem : optionElementStr opt ∈
      ((fields.filter (fun f => f.long_name.isSome)).map jsonOptionEntry ++
        ([⟨"", HELP_FLAG, HELP_DESCRIPTION⟩,
          ⟨"", HELP_JSON_FLAG, HELP_JSON_DESCRIPTION⟩] :
          List OptionHelp)).map optionElementStr :=
    List.mem_map_of_mem optionElementStr h
  obtain ⟨u, v, huv⟩ := sepJoin_mem ",\n    " _ _ hmem
  apply containsStr_of_eq _
    ("\x7b\n" ++ "\"usage\": \"" ++
      substCommandName (build_usage_command_line "{command_name}" fields sub)
        cn ++ "\",\n" ++
      "\"description\": \"" ++ escape_json (descText attrs.description) ++
      "\",\n" ++ "\"options\": [" ++ u) _
    (v ++ "],\n" ++
      "\"positional\": [" ++
      help_elements_json
        ((fields.filter (fun f => f.kind == FieldKind.Positional)).map
          jsonPosEntry) ++ "],\n" ++
      "\"examples\": \"" ++ examplesValueJson attrs cn ++ "\",\n" ++
      "\"notes\": \"" ++ notesValueJson attrs cn ++ "\",\n" ++
      "\"error_codes\": [" ++
      help_elements_json
        (if attrs.error_codes = [] then []
          else attrs.error_codes.map jsonErrEntry) ++ "],\n" ++
      "\"subcommands\": [" ++ subcommandsJson sub cmds ++ "]\n" ++ "\x7d\n")
  simp only [help_json_decomp]
  rw [option_elements_json_eq, huv]
  simp only [String.append_assoc]

theorem help_json_contains_error_element (errors : List Diag)
    (attrs : TypeAttrs) (fields : List StructField)
    (sub : Option StructField) (cn : String) (cmds : List (String × String))
    (code t : String) (h : (code, t) ∈ attrs.error_codes) :
    containsStr (help_json errors attrs fields sub cn cmds).1
      (helpElementStr ⟨code, escape_json t⟩) = true := by
  have hne : attrs.error_codes ≠ [] := by
    intro hc
    rw [hc] at h
    exact absurd h (List.not_mem_nil _)
  have hmem : helpElementStr ⟨code, escape_json t⟩ ∈
      (if attrs.error_codes = [] then []
        else attrs.error_codes.map jsonErrEntry).map helpElementStr := by
    rw [if_neg hne]
    exact List.mem_map_of_mem helpElementStr
      (List.mem_map_of_mem jsonErrEntry h)
  obtain ⟨u, v, huv⟩ := sepJoin_mem ",\n    " _ _ hmem
  apply containsStr_of_eq _
    ("\x7b\n" ++ "\"usage\": \"" ++
      substCommandName (build_usage_command_line "{command_name}" fields sub)
        cn ++ "\",\n" ++
      "\"description\": \"" ++ escape_json (descText attrs.description) ++
      "\",\n" ++
      "\"options\": [" ++
      option_elements_json
        ((fields.filter (fun f => f.long_name.isSome)).map jsonOptionEntry ++
          [⟨"", HELP_FLAG, HELP_DESCRIPTION⟩,
            ⟨"", HELP_JSON_FLAG, HELP_JSON_DESCRIPTION⟩]) ++ "],\n" ++
      "\"positional\": [" ++
      help_elements_json
        ((fields.filter (fun f => f.kind == FieldKind.Positional)).map
          jsonPosEntry) ++ "],\n" ++
      "\"examples\": \"" ++ examplesValueJson attrs cn ++ "\",\n" ++
      "\"notes\": \"" ++ notesValueJson attrs cn ++ "\",\n" ++
      "\"error_codes\": [" ++ u) _
    (v ++ "],\n" ++
      "\"subcommands\": [" ++ subcommandsJson sub cmds ++ "]\n" ++ "\x7d\n")
  simp only [help_json_decomp, help_elements_json_eq]
  rw [huv]
  simp only [String.append_assoc]

theorem help_json_contains_positional_element (errors : List Diag)
    (attrs : TypeAttrs) (fields : List StructField)
    (sub : Option StructField) (cn : String) (cmds : List (String × String))
    (f : StructField)
    (h : f ∈ fields.filter (fun f => f.kind == FieldKind.Positional)) :
    containsStr (help_json errors attrs fields sub cn cmds).1
      (helpElementStr (jsonPosEntry f)) = true := by
  have hmem : helpElementStr (jsonPosEntry f) ∈
      ((fields.filter (fun f => f.kind == FieldKind.Positional)).map
        jsonPosEntry).map helpElementStr :=
    List.mem_map_of_mem helpElementStr (List.mem_map_of_mem jsonPosEntry h)
  obtain ⟨u, v, huv⟩ := sepJoin_mem ",\n    " _ _ hmem
  apply containsStr_of_eq _
    ("\x7b\n" ++ "\"usage\": \"" ++
      substCommandName (build_usage_command_line "{command_name}" fields sub)
        cn ++ "\",\n" ++
      "\"description\": \"" ++ escape_json (descText attrs.description) ++
      "\",\n" ++
      "\"options\": [" ++
      option_elements_json
        ((fields.filter (fun f => f.long_name.isSome)).map jsonOptionEntry ++
          [⟨"", HELP_FLAG, HELP_DESCRIPTION⟩,
            ⟨"", HELP_JSON_FLAG, HELP_JSON_DESCRIPTION⟩]) ++ "],\n" ++
      "\"positional\": [" ++ u) _
    (v ++ "],\n" ++
      "\"examples\": \"" ++ examplesValueJson attrs cn ++ "\",\n" ++
      "\"notes\": \"" ++ notesValueJson attrs cn ++ "\",\n" ++
      "\"error_codes\": [" ++
      help_elements_json
        (if attrs.error_codes = [] then []
          else attrs.error_codes.map jsonErrEntry) ++ "],\n" ++
      "\"subcommands\": [" ++ subcommandsJson sub cmds ++ "]\n" ++ "\x7d\n")
  simp only [help_json_decomp, help_elements_json_eq]
  rw [huv]
  simp only [String.append_assoc]

theorem help_json_contains_subcommand_element (errors : List Diag)
    (attrs : TypeAttrs) (fields : List StructField) (sub : StructField)
    (cn : String) (cmds : List (String × String)) (cmd : String × String)
    (h : cmd ∈ cmds) :
    containsStr (help_json errors attrs fields (some sub) cn cmds).1
      ("\x7b\"name\": \"" ++
        (cmd.1 ++ ("\", \"description\": \"" ++ (cmd.2 ++ "\"\x7d")))) =
      true := by
  have hmem : ("\x7b\"name\": \"" ++ cmd.1 ++ "\", \"description\": \"" ++
      cmd.2 ++ "\"\x7d") ∈
      cmds.map (fun c =>
        "\x7b\"name\": \"" ++ c.1 ++ "\", \"description\": \"" ++ c.2 ++
          "\"\x7d") :=
    List.mem_map_of_mem _ h
  obtain ⟨u, v, huv⟩ := sepJoin_mem ",\n    " _ _ hmem
  apply containsStr_of_eq _
    ("\x7b\n" ++ "\"usage\": \"" ++
      substCommandName
        (build_usage_command_line "{command_name}" fields (some sub)) cn ++
      "\",\n" ++
      "\"description\": \"" ++ escape_json (descText attrs.description) ++
      "\",\n" ++
      "\"options\": [" ++
      option_elements_json
        ((fields.filter (fun f => f.long_name.isSome)).map jsonOptionEntry ++
          [⟨"", HELP_FLAG, HELP_DESCRIPTION⟩,
            ⟨"", HELP_JSON_FLAG, HELP_JSON_DESCRIPTION⟩]) ++ "],\n" ++
      "\"positional\": [" ++
      help_elements_json
        ((fields.filter (fun f => f.kind == FieldKind.Positional)).map
          jsonPosEntry) ++ "],\n" ++
      "\"examples\": \"" ++ examplesValueJson attrs cn ++ "\",\n" ++
      "\"notes\": \"" ++ notesValueJson attrs cn ++ "\",\n" ++
      "\"error_codes\": [" ++
      help_elements_json
        (if attrs.error_codes = [] then []
          else attrs.error_codes.map jsonErrEntry) ++ "],\n" ++
      "\"subcommands\": [" ++ u) _
    (v ++ "]\n" ++ "\x7d\n")
  simp only [help_json_decomp, subcommandsJson]
  rw [huv]
  simp only [String.append_assoc]

/-- Example sub-command field used by the C1 counterexample and witness. -/
def exSubCmdField : StructField :=
  ⟨"cmd", 4, FieldKind.SubCommand, Optionality.Required, none, none, none,
    none⟩

/-- Example attributes with a double quote inside an error-code text, used
by the C1 and C9 witnesses and the C9 counterexample. -/
def exErrAttrs : TypeAttrs := ⟨some "d", [], [], [("1", "a\"b")]⟩

set_option maxRecDepth 8000 in
/-- C1 counterexample: with a sub-command whose runtime description
contains a double quote, the emitted JSON contains the description raw
(yielding malformed JSON) and not its escaped form — so not every string
value passes through the JSON-escaping step. -/
theorem claim_C1_counterexample :
    containsStr (help_json [] exAttrs [] (some exSubCmdField) "mytool"
        [("run", "runs \"it\"")]).1
        "\"description\": \"runs \"it\"\"\x7d" = true ∧
    containsStr (help_json [] exAttrs [] (some exSubCmdField) "mytool"
        [("run", "runs \"it\"")]).1 "runs \\\"it\\\"" = false := by
  decide

/-- C1 (amended): in the JSON help document only the description, examples
and notes values pass through the JSON-escaping step (error-code
descriptions twice, see C9); the usage value, option short/long names,
positional and error-code names, and the runtime sub-command name and
description entries are inserted raw, without escaping.  Conjunct (i)
exhibits the usage slot raw and the description slot escaped; (ii) shows
every collected option entry serialized via `optionElementStr` (raw short
and long, escaped description); (iii) shows every runtime sub-command
entry inserted verbatim; (iv) shows every positional entry serialized via
`helpElementStr` with its display name raw and only its description
escaped; (v) shows every error-code entry serialized with its code name
raw and its text escaped at collection time and again by
`helpElementStr`; (vi) shows the examples and notes slots holding the
escaped values. -/
theorem claim_C1 (errors : List Diag) (attrs : TypeAttrs)
    (fields : List StructField) (sub : StructField) (cn : String)
    (cmds : List (String × String)) :
    (∃ post, (help_json errors attrs fields (some sub) cn cmds).1 =
        "\x7b\n" ++ ("\"usage\": \"" ++
          (substCommandName
              (build_usage_command_line "{command_name}" fields (some sub))
              cn ++
            ("\",\n" ++ ("\"description\": \"" ++
              (escape_json (descText attrs.description) ++
                ("\",\n" ++ post))))))) ∧
    (∀ opt ∈ (json_options errors fields).1,
      containsStr (help_json errors attrs fields (some sub) cn cmds).1
          (optionElementStr opt) = true) ∧
    (∀ cmd ∈ cmds,
      containsStr (help_json errors attrs fields (some sub) cn cmds).1
          ("\x7b\"name\": \"" ++
            (cmd.1 ++ ("\", \"description\": \"" ++ (cmd.2 ++ "\"\x7d")))) =
        true) ∧
    (∀ f ∈ fields.filter (fun f => f.kind == FieldKind.Positional),
      containsStr (help_json errors attrs fields (some sub) cn cmds).1
          (helpElementStr ⟨f.arg_name, descText f.description⟩) = true) ∧
    (∀ ct ∈ attrs.error_codes,
      containsStr (help_json errors attrs fields (some sub) cn cmds).1
          (helpElementStr ⟨ct.1, escape_json ct.2⟩) = true) ∧
    (∃ pre post, (help_json errors attrs fields (some sub) cn cmds).1 =
        pre ++ ("\"examples\": \"" ++ (examplesValueJson attrs cn ++
          ("\",\n" ++ ("\"notes\": \"" ++ (notesValueJson attrs cn ++
            ("\",\n" ++ post))))))) := by
  refine ⟨⟨"\"options\": [" ++
      option_elements_json
        ((fields.filter (fun f => f.long_name.isSome)).map jsonOptionEntry ++
          [⟨"", HELP_FLAG, HELP_DESCRIPTION⟩,
            ⟨"", HELP_JSON_FLAG, HELP_JSON_DESCRIPTION⟩]) ++ "],\n" ++
      "\"positional\": [" ++
      help_elements_json
        ((fields.filter (fun f => f.kind == FieldKind.Positional)).map
          jsonPosEntry) ++ "],\n" ++
      "\"examples\": \"" ++ examplesValueJson attrs cn ++ "\",\n" ++
      "\"notes\": \"" ++ notesValueJson attrs cn ++ "\",\n" ++
      "\"error_codes\": [" ++
      help_elements_json
        (if attrs.error_codes = [] then []
          else attrs.error_codes.map jsonErrEntry) ++ "],\n" ++
      "\"subcommands\": [" ++ subcommandsJson (some sub) cmds ++ "]\n" ++
      "\x7d\n", ?_⟩, ?_, ?_, ?_, ?_,
    ⟨"\x7b\n" ++ "\"usage\": \"" ++
      substCommandName
        (build_usage_command_line "{command_name}" fields (some sub)) cn ++
      "\",\n" ++
      "\"description\": \"" ++ escape_json (descText attrs.description) ++
      "\",\n" ++
      "\"options\": [" ++
      option_elements_json
        ((fields.filter (fun f => f.long_name.isSome)).map jsonOptionEntry ++
          [⟨"", HELP_FLAG, HELP_DESCRIPTION⟩,
            ⟨"", HELP_JSON_FLAG, HELP_JSON_DESCRIPTION⟩]) ++ "],\n" ++
      "\"positional\": [" ++
      help_elements_json
        ((fields.filter (fun f => f.kind == FieldKind.Positional)).map
          jsonPosEntry) ++ "],\n",
    "\"error_codes\": [" ++
      help_elements_json
        (if attrs.error_codes = [] then []
          else attrs.error_codes.map jsonErrEntry) ++ "],\n" ++
      "\"subcommands\": [" ++ subcommandsJson (some sub) cmds ++ "]\n" ++
      "\x7d\n", ?_⟩⟩
  · simp only [help_json_decomp]
    simp only [String.append_assoc]
  · intro opt hopt
    exact help_json_contains_option_element errors attrs fields (some sub) cn
      cmds opt hopt
  · intro cmd hcmd
    exact help_json_contains_subcommand_element errors attrs fields sub cn
      cmds cmd hcmd
  · intro f hf
    exact help_json_contains_positional_element errors attrs fields
      (some sub) cn cmds f hf
  · intro ct hct
    exact help_json_contains_error_element errors attrs fields (some sub) cn
      cmds ct.1 ct.2 hct
  · simp only [help_json_decomp]
    simp only [String.append_assoc]

set_option maxRecDepth 8000 in
/-- Witness for C1: the amended claim applied at a concrete schema — the
`--tag` option entry, a raw sub-command entry, the positional `foo` entry
with its raw name, and the error-code entry with its raw code name all
occur in the emitted JSON. -/
theorem claim_C1_witness :
    containsStr (help_json [] exErrAttrs [exFoo, exTag] (some exSubCmdField)
        "mytool" [("run", "goes")]).1
        (optionElementStr ⟨"t", "--tag", "a tag"⟩) = true ∧
    containsStr (help_json [] exErrAttrs [exFoo, exTag] (some exSubCmdField)
        "mytool" [("run", "goes")]).1
        ("\x7b\"name\": \"" ++
          ("run" ++ ("\", \"description\": \"" ++ ("goes" ++ "\"\x7d")))) =
      true ∧
    containsStr (help_json [] exErrAttrs [exFoo, exTag] (some exSubCmdField)
        "mytool" [("run", "goes")]).1
        (helpElementStr ⟨exFoo.arg_name, descText exFoo.description⟩) =
      true ∧
    containsStr (help_json [] exErrAttrs [exFoo, exTag] (some exSubCmdField)
        "mytool" [("run", "goes")]).1
        (helpElementStr ⟨"1", escape_json "a\"b"⟩) = true :=
  ⟨(claim_C1 [] exErrAttrs [exFoo, exTag] exSubCmdField "mytool"
        [("run", "goes")]).2.1 ⟨"t", "--tag", "a tag"⟩ (by decide),
    (claim_C1 [] exErrAttrs [exFoo, exTag] exSubCmdField "mytool"
        [("run", "goes")]).2.2.1 ("run", "goes") (by decide),
    (claim_C1 [] exErrAttrs [exFoo, exTag] exSubCmdField "mytool"
        [("run", "goes")]).2.2.2.1 exFoo (by decide),
    (claim_C1 [] exErrAttrs [exFoo, exTag] exSubCmdField "mytool"
        [("run", "goes")]).2.2.2.2.1 ("1", "a\"b") (by decide)⟩

/-! ### C9: double escaping of error-code descriptions -/

theorem concatMap_mem (g : Char → List Char) (l : List Char) (c : Char)
    (h : c ∈ l) : ∃ u v, concatMap g l = u ++ (g c ++ v) := by
  induction l with
  | nil => exact absurd h (List.not_mem_nil c)
  | cons a r ih =>
    rcases List.mem_cons.mp h with h1 | h1
    · subst h1
      exact ⟨[], concatMap g r, by simp [concatMap]⟩
    · obtain ⟨u, v, hu⟩ := ih h1
      exact ⟨g a ++ u, v, by simp [concatMap, hu]⟩

set_option maxRecDepth 8000 in
/-- C9 counterexample: for the error-code text `a"b`, the emitted JSON
contains the three-character sequence backslash-backslash-quote (the
double-escaped quote), not the four-character backslash-backslash-
backslash-quote sequence the claim states — escaping the quote twice does
not escape the backslash introduced by the first pass. -/
theorem claim_C9_counterexample :
    containsStr (help_json [] exErrAttrs [] none "t" []).1 "a\\\\\"b" =
      true ∧
    containsStr (help_json [] exErrAttrs [] none "t" []).1 "a\\\\\\\"b" =
      false := by
  decide

/-- C9 (amended): each error-code description is escaped twice — once at
collection and once at serialization — so its emitted description slot is
`escape_json (escape_json t)`, and for a text containing a double quote the
result contains the three-character sequence backslash-backslash-quote
rather than the single-escaped backslash-quote. -/
theorem claim_C9 (errors : List Diag) (attrs : TypeAttrs)
    (fields : List StructField) (sub : Option StructField) (cn : String)
    (cmds : List (String × String)) (code t : String)
    (h : (code, t) ∈ attrs.error_codes) :
    containsStr (help_json errors attrs fields sub cn cmds).1
        (helpElementStr ⟨code, escape_json t⟩) = true ∧
    ('"' ∈ t.data →
      containsStr (escape_json (escape_json t)) "\\\\\"" = true) := by
  constructor
  · exact help_json_contains_error_element errors attrs fields sub cn cmds
      code t h
  · intro hq
    have hd : (escape_json (escape_json t)).data =
        concatMap (fun c => concatMap escJsonChar (escJsonChar c)) t.data := by
      rw [escape_json_data, escape_json_data, concatMap_concatMap]
    obtain ⟨u, v, huv⟩ :=
      concatMap_mem (fun c => concatMap escJsonChar (escJsonChar c)) t.data
        '"' hq
    have hblock : concatMap escJsonChar (escJsonChar '"') =
        ['\\', '\\', '"'] := by decide
    rw [hblock] at huv
    have hpat : ("\\\\\"" : String).data = ['\\', '\\', '"'] := rfl
    simp only [containsStr, hpat, hd, huv]
    apply isInfixOfChars_append_right
    apply isInfixOfChars_of_isPrefixOf
    rw [List.isPrefixOf_iff_prefix]
    exact List.prefix_append _ _

set_option maxRecDepth 8000 in
/-- Witness for C9: the amended claim applied at the concrete error code
`("1", "a\"b")`. -/
theorem claim_C9_witness :
    containsStr (help_json [] exErrAttrs [] none "t" []).1
        (helpElementStr ⟨"1", escape_json "a\"b"⟩) = true ∧
    containsStr (escape_json (escape_json "a\"b")) "\\\\\"" = true :=
  ⟨(claim_C9 [] exErrAttrs [] none "t" [] "1" "a\"b" (by decide)).1,
    (claim_C9 [] exErrAttrs [] none "t" [] "1" "a\"b" (by decide)).2
      (by decide)⟩

/-- Example positional field with no description, used by the C2
counterexample. -/
def exPosNoDesc : StructField :=
  ⟨"input", 5, FieldKind.Positional, Optionality.Required, none, none, none,
    none⟩

/-- C2 counterexample: a rendered positional field with no description
yields an empty diagnostics list in both renderers — its description does
not pass through `require_description` (no diagnostic is recorded; the
field still renders, as `<input>` in the usage line shows). -/
theorem claim_C2_counterexample :
    (help [] exAttrs [exPosNoDesc] none).2 = [] ∧
    containsStr (help [] exAttrs [exPosNoDesc] none).1 "<input>" = true ∧
    (help_json [] exAttrs [exPosNoDesc] none "t" []).2 = [] := by
  decide

/-- C2 (amended): the command type's description and every long-named
(option/switch) field's description pass through `require_description`,
which accumulates one diagnostic per missing description (so two fields
missing descriptions yield two distinct diagnostics in one pass, tied to
each field's span) and falls back to the empty string; positional field
descriptions bypass `require_description` entirely and fall back silently.
The diagnostics of one render are exactly the type-level diagnostic (when
the type description is missing) plus one per long-named field with a
missing description, in declaration order. -/
theorem claim_C2 (errors : List Diag) (attrs : TypeAttrs)
    (fields : List StructField) (sub : Option StructField) (cn : String)
    (cmds : List (String × String)) :
    (help errors attrs fields sub).2 =
      errors ++ missingDiag call_site "type" attrs.description ++
        (fields.filter (fun f => f.long_name.isSome)).flatMap
          (fun f => missingDiag f.span "field" f.description) ∧
    (help_json errors attrs fields sub cn cmds).2 =
      errors ++
        (fields.filter (fun f => f.long_name.isSome)).flatMap
          (fun f => missingDiag f.span "field" f.description) ++
        missingDiag call_site "type" attrs.description ∧
    (∀ f ∈ fields.filter (fun f => f.long_name.isSome),
      f.description = none →
      (⟨f.span, no_description_msg "field"⟩ : Diag) ∈
        (help errors attrs fields sub).2) := by
  refine ⟨?_, ?_, ?_⟩
  · simp only [help_decomp]
  · simp only [help_json_decomp]
  · intro f hf hdesc
    simp only [help_decomp]
    have hmem : (⟨f.span, no_description_msg "field"⟩ : Diag) ∈
        (fields.filter (fun f => f.long_name.isSome)).flatMap
          (fun f => missingDiag f.span "field" f.description) :=
      List.mem_flatMap.mpr ⟨f, hf, by simp [missingDiag, hdesc]⟩
    exact List.mem_append.mpr (Or.inr hmem)

/-- Example long-named field with no description (span 6). -/
def exOptNoDesc1 : StructField :=
  ⟨"alpha", 6, FieldKind.Switch, Optionality.Optional, some "--alpha", none,
    none, none⟩

/-- Example long-named field with no description (span 7). -/
def exOptNoDesc2 : StructField :=
  ⟨"beta", 7, FieldKind.Switch, Optionality.Optional, some "--beta", none,
    none, none⟩

/-- Witness for C2: two long-named fields lacking descriptions produce two
distinct diagnostics, one per field span, in a single render pass. -/
theorem claim_C2_witness :
    (⟨6, no_description_msg "field"⟩ : Diag) ∈
        (help [] exAttrs [exOptNoDesc1, exOptNoDesc2] none).2 ∧
      (⟨7, no_description_msg "field"⟩ : Diag) ∈
        (help [] exAttrs [exOptNoDesc1, exOptNoDesc2] none).2 :=
  ⟨(claim_C2 [] exAttrs [exOptNoDesc1, exOptNoDesc2] none "t" []).2.2
      exOptNoDesc1 (by decide) rfl,
    (claim_C2 [] exAttrs [exOptNoDesc1, exOptNoDesc2] none "t" []).2.2
      exOptNoDesc2 (by decide) rfl⟩

/-! ### Schema input strings and character-absence lemmas (for C8) -/

/-- All schema-supplied strings of one field. -/
def fieldStrings (f : StructField) : List String :=
  [f.name] ++
  (match f.long_name with
    | some l => [l]
    | none => []) ++
  (match f.short with
    | some c => [c.toString]
    | none => []) ++
  (match f.arg_name_override with
    | some a => [a]
    | none => []) ++
  (match f.description with
    | some d => [d]
    | none => [])

/-- All schema-supplied strings of one command descriptor. -/
def schemaStrings (attrs : TypeAttrs) (fields : List StructField)
    (sub : Option StructField) : List String :=
  (match attrs.description with
    | some d => [d]
    | none => []) ++
  attrs.examples ++ attrs.notes ++
  attrs.error_codes.flatMap (fun ct => [ct.1, ct.2]) ++
  fields.flatMap fieldStrings ++
  (match sub with
    | some s => fieldStrings s
    | none => [])

theorem not_mem_append_str {c : Char} (a b : String) (ha : c ∉ a.data)
    (hb : c ∉ b.data) : c ∉ (a ++ b).data := by
  intro h
  rw [strData_append] at h
  rcases List.mem_append.mp h with h | h
  exacts [ha h, hb h]

theorem not_mem_strConcatMap {c : Char} (g : α → String) (l : List α)
    (h : ∀ x ∈ l, c ∉ (g x).data) : c ∉ (strConcatMap g l).data := by
  induction l with
  | nil => simp [strConcatMap]
  | cons x r ih =>
    exact not_mem_append_str _ _ (h x (List.mem_cons_self x r))
      (ih (fun y hy => h y (List.mem_cons_of_mem x hy)))

theorem P_not_mem_option_usage (f : StructField)
    (h : ∀ s ∈ fieldStrings f, 'P' ∉ s.data) :
    'P' ∉ (option_usage f).data := by
  have hlongD : 'P' ∉ (f.long_name.getD "").data := by
    cases hl : f.long_name with
    | none => simp
    | some l =>
      simp only [Option.getD_some]
      exact h l (by simp [fieldStrings, hl])
  have hname : 'P' ∉ (option_usage_name f).data := by
    cases hsh : f.short with
    | none => simpa [option_usage_name, hsh] using hlongD
    | some c =>
      simp only [option_usage_name, hsh]
      apply not_mem_append_str
      · decide
      · intro hc
        exact h c.toString (by simp [fieldStrings, hsh]) hc
  have hvalue : 'P' ∉ (option_usage_value f).data := by
    cases hk : f.kind with
    | Positional => simp [option_usage_value, hk]
    | SubCommand => simp [option_usage_value, hk]
    | Switch => simp [option_usage_value, hk]
    | Option =>
      simp only [option_usage_value, hk]
      apply not_mem_append_str
      apply not_mem_append_str
      apply not_mem_append_str
      · decide
      · cases hov : f.arg_name_override with
        | some a =>
          intro hc
          exact h a (by simp [fieldStrings, hov]) hc
        | none =>
          intro hc
          exact hlongD (mem_trimStartMatches _ "--" 'P' hc)
      · split <;> decide
      · decide
  have hcore : 'P' ∉ (option_usage_name f ++ option_usage_value f).data :=
    not_mem_append_str _ _ hname hvalue
  rw [option_usage_eq]
  by_cases hreq : f.optionality.is_required = true
  · simpa [hreq] using hcore
  · simp only [hreq]
    simp only [Bool.false_eq_true, if_false]
    apply not_mem_append_str
    apply not_mem_append_str
    · decide
    · exact hcore
    · decide

theorem P_not_mem_positional_usage (f : StructField)
    (h : ∀ s ∈ fieldStrings f, 'P' ∉ s.data) :
    'P' ∉ (positional_usage f).data := by
  have harg : 'P' ∉ f.arg_name.data := by
    cases hov : f.arg_name_override with
    | some a =>
      simpa [StructField.arg_name, hov] using
        fun hc => h a (by simp [fieldStrings, hov]) hc
    | none =>
      simpa [StructField.arg_name, hov] using
        fun hc => h f.name (by simp [fieldStrings]) hc
  have hcore : 'P' ∉ ("<" ++ f.arg_name ++
      (if f.optionality = Optionality.Repeating then "..." else "") ++
      ">").data := by
    apply not_mem_append_str
    apply not_mem_append_str
    apply not_mem_append_str
    · decide
    · exact harg
    · split <;> decide
    · decide
  simp only [positional_usage]
  by_cases hreq : f.optionality.is_required = true
  · simpa [hreq] using hcore
  · simp only [hreq]
    simp only [Bool.false_eq_true, if_false]
    apply not_mem_append_str
    apply not_mem_append_str
    · decide
    · exact hcore
    · decide

theorem P_not_mem_getD_long (f : StructField)
    (h : ∀ s ∈ fieldStrings f, 'P' ∉ s.data) :
    'P' ∉ (f.long_name.getD "").data := by
  cases hl : f.long_name with
  | none => simp
  | some l =>
    simp only [Option.getD_some]
    exact h l (by simp [fieldStrings, hl])

theorem P_not_mem_descText (f : StructField)
    (h : ∀ s ∈ fieldStrings f, 'P' ∉ s.data) :
    'P' ∉ (descText f.description).data := by
  intro hc
  obtain ⟨d, hd, hm⟩ := mem_descText f.description 'P' hc
  exact h d (by simp [fieldStrings, hd]) hm

theorem P_not_mem_optionEntryText (f : StructField)
    (h : ∀ s ∈ fieldStrings f, 'P' ∉ s.data) :
    'P' ∉ (optionEntryText f).data := by
  simp only [optionEntryText, option_description_format, write_description]
  apply not_mem_append_str
  apply not_mem_append_str
  apply not_mem_append_str
  apply not_mem_append_str
  · decide
  · decide
  · apply not_mem_append_str
    · cases hsh : f.short with
      | some c =>
        show 'P' ∉ ("-" ++ c.toString ++ ", ").data
        apply not_mem_append_str
        apply not_mem_append_str
        · decide
        · intro hc
          exact h c.toString (by simp [fieldStrings, hsh]) hc
        · decide
      | none => decide
    · exact P_not_mem_getD_long f h
  · decide
  · exact P_not_mem_descText f h

theorem P_not_mem_usageLine (fields : List StructField)
    (sub : Option StructField)
    (hp : fields.filter (fun f => f.kind == FieldKind.Positional) = [])
    (h : ∀ f ∈ fields, ∀ s ∈ fieldStrings f, 'P' ∉ s.data) :
    'P' ∉ (usageLineText fields sub).data := by
  rw [usageLineText, build_usage_command_line_eq]
  apply not_mem_append_str
  apply not_mem_append_str
  apply not_mem_append_str
  · decide
  · rw [hp]
    decide
  · apply not_mem_strConcatMap
    intro f hf
    apply not_mem_append_str
    · decide
    · exact P_not_mem_option_usage f (h f (List.mem_filter.mp hf).1)
  · cases sub with
    | none => decide
    | some s =>
      show 'P' ∉ (if s.optionality.is_required then " <command> [<args>]"
        else " [<command>] [<args>]").data
      split <;> decide

theorem P_not_mem_optionsSectionText (fields : List StructField)
    (h : ∀ f ∈ fields, ∀ s ∈ fieldStrings f, 'P' ∉ s.data) :
    'P' ∉ (optionsSectionText fields).data := by
  simp only [optionsSectionText]
  apply not_mem_append_str
  apply not_mem_append_str
  apply not_mem_append_str
  apply not_mem_append_str
  · decide
  · decide
  · apply not_mem_strConcatMap
    intro f hf
    exact P_not_mem_optionEntryText f (h f (List.mem_filter.mp hf).1)
  · decide
  · decide

theorem P_not_mem_litsSectionText (heading : String) (lits : List String)
    (hh : 'P' ∉ heading.data) (h : ∀ s ∈ lits, 'P' ∉ s.data) :
    'P' ∉ (litsSectionText heading lits).data := by
  by_cases hl : lits = []
  · simp [litsSectionText, hl]
  · simp only [litsSectionText, if_neg hl]
    apply not_mem_append_str
    apply not_mem_append_str
    · decide
    · exact hh
    · apply not_mem_strConcatMap
      intro v hv
      apply not_mem_strConcatMap
      intro line hline
      apply not_mem_append_str
      · decide
      · apply not_mem_append_str
        · decide
        · intro hc
          exact h v hv (mem_splitLines v line 'P' hline hc)

theorem P_not_mem_errorCodesSectionText (codes : List (String × String))
    (h : ∀ ct ∈ codes, 'P' ∉ (Prod.fst ct).data ∧ 'P' ∉ (Prod.snd ct).data) :
    'P' ∉ (errorCodesSectionText codes).data := by
  by_cases hc : codes = []
  · simp [errorCodesSectionText, hc]
  · simp only [errorCodesSectionText, if_neg hc]
    apply not_mem_append_str
    apply not_mem_append_str
    · decide
    · decide
    · apply not_mem_strConcatMap
      intro ct hct
      apply not_mem_append_str
      · decide
      · apply not_mem_append_str
        · decide
        · apply not_mem_append_str
          · exact (h ct hct).1
          · apply not_mem_append_str
            · decide
            · exact (h ct hct).2

theorem schemaStrings_field_mem (attrs : TypeAttrs)
    (fields : List StructField) (sub : Option StructField) (f : StructField)
    (s : String) (hf : f ∈ fields) (hs : s ∈ fieldStrings f) :
    s ∈ schemaStrings attrs fields sub := by
  unfold schemaStrings
  exact List.mem_append.mpr (Or.inl (List.mem_append.mpr
    (Or.inr (List.mem_flatMap.mpr ⟨f, hf, hs⟩))))

theorem schemaStrings_desc_mem (attrs : TypeAttrs)
    (fields : List StructField) (sub : Option StructField) (d : String)
    (hd : attrs.description = some d) :
    d ∈ schemaStrings attrs fields sub := by
  unfold schemaStrings
  refine List.mem_append.mpr (Or.inl ?_)
  refine List.mem_append.mpr (Or.inl ?_)
  refine List.mem_append.mpr (Or.inl ?_)
  refine List.mem_append.mpr (Or.inl ?_)
  refine List.mem_append.mpr (Or.inl ?_)
  simp [hd]

theorem schemaStrings_example_mem (attrs : TypeAttrs)
    (fields : List StructField) (sub : Option StructField) (s : String)
    (hs : s ∈ attrs.examples) : s ∈ schemaStrings attrs fields sub := by
  unfold schemaStrings
  refine List.mem_append.mpr (Or.inl ?_)
  refine List.mem_append.mpr (Or.inl ?_)
  refine List.mem_append.mpr (Or.inl ?_)
  refine List.mem_append.mpr (Or.inl ?_)
  exact List.mem_append.mpr (Or.inr hs)

theorem schemaStrings_note_mem (attrs : TypeAttrs)
    (fields : List StructField) (sub : Option StructField) (s : String)
    (hs : s ∈ attrs.notes) : s ∈ schemaStrings attrs fields sub := by
  unfold schemaStrings
  refine List.mem_append.mpr (Or.inl ?_)
  refine List.mem_append.mpr (Or.inl ?_)
  refine List.mem_append.mpr (Or.inl ?_)
  exact List.mem_append.mpr (Or.inr hs)

theorem schemaStrings_error_mem (attrs : TypeAttrs)
    (fields : List StructField) (sub : Option StructField)
    (ct : String × String) (hct : ct ∈ attrs.error_codes) :
    ct.1 ∈ schemaStrings attrs fields sub ∧
      ct.2 ∈ schemaStrings attrs fields sub := by
  unfold schemaStrings
  constructor <;>
  · refine List.mem_append.mpr (Or.inl ?_)
    refine List.mem_append.mpr (Or.inl ?_)
    refine List.mem_append.mpr (Or.inr ?_)
    exact List.mem_flatMap.mpr ⟨ct, hct, by simp⟩

/-- C8: the text document contains a `Positional Arguments:` heading
exactly when a positional field exists: it is present whenever the filter
is non-empty, and entirely absent when it is empty (under the schema
invariant that no schema-supplied string contains the capital letter `P`,
which no other literal of the renderer contains either); the document is
terminated by a trailing newline; and the document is exactly the
concatenation of its sections, each optional section contributing either
nothing or its `\n\n`-separated block. -/
theorem claim_C8 (errors : List Diag) (attrs : TypeAttrs)
    (fields : List StructField) (sub : Option StructField) :
    ((fields.filter (fun f => f.kind == FieldKind.Positional)) ≠ [] →
      containsStr (help errors attrs fields sub).1 "Positional Arguments:" =
        true) ∧
    ((fields.filter (fun f => f.kind == FieldKind.Positional)) = [] →
      (∀ s ∈ schemaStrings attrs fields sub, 'P' ∉ s.data) →
      containsStr (help errors attrs fields sub).1 "Positional Arguments:" =
        false) ∧
    strEndsWith (help errors attrs fields sub).1 "\n" = true ∧
    (help errors attrs fields sub).1 =
      usageLineText fields sub ++ SECTION_SEPARATOR ++
        descText attrs.description ++ posSectionText fields ++
        optionsSectionText fields ++ commandsSectionText sub ++
        litsSectionText "Examples:" attrs.examples ++
        litsSectionText "Notes:" attrs.notes ++
        errorCodesSectionText attrs.error_codes ++ "\n" := by
  refine ⟨?_, ?_, ?_, ?_⟩
  · intro hp
    apply containsStr_of_eq _
      (usageLineText fields sub ++ SECTION_SEPARATOR ++
        descText attrs.description ++ SECTION_SEPARATOR) _
      (strConcatMap positional_description
          (fields.filter (fun f => f.kind == FieldKind.Positional)) ++
        optionsSectionText fields ++ commandsSectionText sub ++
        litsSectionText "Examples:" attrs.examples ++
        litsSectionText "Notes:" attrs.notes ++
        errorCodesSectionText attrs.error_codes ++ "\n")
    simp only [help_decomp, posSectionText, if_neg hp]
    simp only [String.append_assoc]
  · intro hp hno
    apply not_containsStr_of_not_mem _ _ 'P' (by decide)
    simp only [help_decomp]
    have hfields : ∀ f ∈ fields, ∀ s ∈ fieldStrings f, 'P' ∉ s.data :=
      fun f hf s hs =>
        hno s (schemaStrings_field_mem attrs fields sub f s hf hs)
    apply not_mem_append_str
    apply not_mem_append_str
    apply not_mem_append_str
    apply not_mem_append_str
    apply not_mem_append_str
    apply not_mem_append_str
    apply not_mem_append_str
    apply not_mem_append_str
    apply not_mem_append_str
    · exact P_not_mem_usageLine fields sub hp hfields
    · decide
    · intro hc
      obtain ⟨d, hd, hm⟩ := mem_descText attrs.description 'P' hc
      exact hno d (schemaStrings_desc_mem attrs fields sub d hd) hm
    · simp [posSectionText, hp]
    · exact P_not_mem_optionsSectionText fields hfields
    · cases sub with
      | none => decide
      | some s =>
        show 'P' ∉ (SECTION_SEPARATOR ++ "Commands:{subcommands}").data
        decide
    · exact P_not_mem_litsSectionText "Examples:" attrs.examples (by decide)
        (fun s hs => hno s (schemaStrings_example_mem attrs fields sub s hs))
    · exact P_not_mem_litsSectionText "Notes:" attrs.notes (by decide)
        (fun s hs => hno s (schemaStrings_note_mem attrs fields sub s hs))
    · apply P_not_mem_errorCodesSectionText
      intro ct hct
      exact ⟨hno ct.1 (schemaStrings_error_mem attrs fields sub ct hct).1,
        hno ct.2 (schemaStrings_error_mem attrs fields sub ct hct).2⟩
    · decide
  · simp only [help_decomp]
    exact strEndsWith_append _ "\n"
  · simp only [help_decomp]

/-- Witness for C8: at a concrete schema with no positional field (and no
capital `P` in any schema string) the heading is absent and the document
ends with a newline; at the §8 schema with the positional `foo` the
heading is present. -/
theorem claim_C8_witness :
    containsStr (help [] exAttrs [exTag] none).1 "Positional Arguments:" =
        false ∧
      strEndsWith (help [] exAttrs [exTag] none).1 "\n" = true ∧
      containsStr (help [] exAttrs [exFoo, exTag] none).1
          "Positional Arguments:" = true :=
  ⟨(claim_C8 [] exAttrs [exTag] none).2.1 (by decide) (by decide),
    (claim_C8 [] exAttrs [exTag] none).2.2.1,
    (claim_C8 [] exAttrs [exFoo, exTag] none).1 (by decide)⟩

end ArghHelp
